import Mathlib

/-!
Verification of the springs-and-struts box layout (Row / Column).

The two layout classes `Row` and `Column` are mirror images of one another:
`Row` stacks children horizontally (primary axis = width, cross axis = height,
justified by `hJustification`), `Column` stacks them vertically (primary axis =
height, cross axis = width, justified by `wJustification`).  Numbers are
modelled by the rationals so that all arithmetic is exact; the possibly
unbounded `max` component of a sizing configuration lives in `WithTop ℚ`
(addition and binary `max` on `WithTop ℚ` agree with IEEE behaviour of
`Infinity` under `+` and `Math.max` for non-negative inputs).
-/

/-- Modelled from the spec: the external `SizeConfig` class (its source is not
part of this repository) is an immutable triple `(natural, min, max)` of
non-negative numbers with `min ≤ natural ≤ max`; `max` may be unbounded. -/
structure SizeConfig where
  nat : ℚ
  min : ℚ
  max : WithTop ℚ
deriving DecidableEq

/-- Modelled from the spec: named constructor `fixed(v)` gives `(v, v, v)`. -/
def SizeConfig.fixed (v : ℚ) : SizeConfig := ⟨v, v, (v : ℚ)⟩

/-- Modelled from the spec: named constructor `elastic(v)` gives `(v, 0, +∞)`. -/
def SizeConfig.elastic (v : ℚ) : SizeConfig := ⟨v, 0, ⊤⟩

/-- A child of a layout container.  Per the spec's interface boundary, the only
contract a child must satisfy is exposing position `(x, y)`, size `(w, h)` and
the two sizing configurations; `isSpring` models the `instanceof Spring`
classification used by the layout code. -/
structure Child where
  x : ℚ
  y : ℚ
  w : ℚ
  h : ℚ
  wConfig : SizeConfig
  hConfig : SizeConfig
  isSpring : Bool
deriving DecidableEq

/-- Modelled from the spec: the `naturalW` accessor of the external drawn-object
base class reads the natural component of the width configuration. -/
def Child.naturalW (c : Child) : ℚ := c.wConfig.nat

/-- Modelled from the spec: the `minW` accessor of the external drawn-object
base class reads the min component of the width configuration. -/
def Child.minW (c : Child) : ℚ := c.wConfig.min

/-- State of a `Row` container: position, size, the two sizing configurations,
the cross-axis justification string, and the ordered child list. -/
structure Row where
  x : ℚ
  y : ℚ
  w : ℚ
  h : ℚ
  wConfig : SizeConfig
  hConfig : SizeConfig
  hJustification : String
  children : List Child
deriving DecidableEq

/-- State of a `Column` container (mirror of `Row` with the axes swapped). -/
structure Column where
  x : ℚ
  y : ℚ
  w : ℚ
  h : ℚ
  wConfig : SizeConfig
  hConfig : SizeConfig
  wJustification : String
  children : List Child
deriving DecidableEq

/-- The loop body of `Row._measureChildren`: walk the children left to right,
accumulating the natural-width sum and available compression of the non-spring
children and the number of springs. -/
def Row.measureLoop : List Child → ℚ → ℚ → Nat → ℚ × ℚ × Nat
  | [], natSum, availCompr, numSprings => (natSum, availCompr, numSprings)
  | child :: rest, natSum, availCompr, numSprings =>
    if child.isSpring then
      Row.measureLoop rest natSum availCompr (numSprings + 1)
    else
      Row.measureLoop rest (natSum + child.naturalW)
        (availCompr + (child.naturalW - child.minW)) numSprings

/-- Method `Row._measureChildren`: returns `(natSum, availCompr, numSprings)`. -/
def Row.measureChildren (cs : List Child) : ℚ × ℚ × Nat :=
  Row.measureLoop cs 0 0 0

/-- Method `Row._expandChildSprings`: if there are no springs do nothing, otherwise
set every spring's width to the even share `excess / numSprings`. -/
def Row.expandChildSprings (cs : List Child) (excess : ℚ) (numSprings : Nat) : List Child :=
  if numSprings = 0 then cs
  else
    let eachExcess := excess / (numSprings : ℚ)
    cs.map fun child => if child.isSpring then { child with w := eachExcess } else child

/-- Method `Row._compressChildren`: every non-spring child is assigned width
`max(min, nat - (nat - min)/availCompr * shortfall)`; springs are skipped. -/
def Row.compressChildren (cs : List Child) (shortfall availCompr : ℚ) : List Child :=
  cs.map fun child =>
    if child.isSpring then child
    else
      let compr := child.wConfig.nat - child.wConfig.min
      let fraction := compr / availCompr
      { child with w := max child.wConfig.min (child.wConfig.nat - fraction * shortfall) }

/-- Method `Row._adjustChildren`: measure the children, compare the container's width
with the natural sum, then either expand the springs (excess case) or zero the
springs and compress the non-spring children (shortfall case, clamped to the
available compression; nothing further happens when there is none). -/
def Row.adjustChildren (r : Row) : Row :=
  let m := Row.measureChildren r.children
  let excess := r.w - m.1
  if 0 ≤ excess then
    { r with children := Row.expandChildSprings r.children excess m.2.2 }
  else
    let zeroed := r.children.map fun child =>
      if child.isSpring then { child with w := 0 } else child
    if m.2.1 = 0 then { r with children := zeroed }
    else
      let shortfall := min m.2.1 (-excess)
      { r with children := Row.compressChildren zeroed shortfall m.2.1 }

/-- Accumulator of the `_doLocalSizing` loop: six running values, sums along
the primary axis and running maxima along the cross axis. -/
structure SizingAcc where
  minW : ℚ
  naturalW : ℚ
  maxW : WithTop ℚ
  minH : ℚ
  naturalH : ℚ
  maxH : WithTop ℚ

/-- The loop of `Row._doLocalSizing`: sum the width configurations and take the
piecewise maxima of the height configurations of the children. -/
def Row.sizingLoop : List Child → SizingAcc → SizingAcc
  | [], acc => acc
  | child :: rest, acc =>
    Row.sizingLoop rest
      { minW := acc.minW + child.wConfig.min
        naturalW := acc.naturalW + child.wConfig.nat
        maxW := acc.maxW + child.wConfig.max
        minH := max acc.minH child.hConfig.min
        naturalH := max acc.naturalH child.hConfig.nat
        maxH := max acc.maxH child.hConfig.max }

/-- Method `Row._doLocalSizing`: replace the row's width configuration by the
componentwise sum of the children's and its height configuration by the
componentwise running maximum (both starting from 0). -/
def Row.doLocalSizing (r : Row) : Row :=
  let acc := Row.sizingLoop r.children ⟨0, 0, 0, 0, 0, 0⟩
  { r with
    hConfig := ⟨acc.naturalH, acc.minH, acc.maxH⟩
    wConfig := ⟨acc.naturalW, acc.minW, acc.maxW⟩ }

/-- The first loop of `Row._completeLocalLayout`: set every child's height to
its natural height while tracking the running maximum height. -/
def Row.setHeights : List Child → ℚ → List Child × ℚ
  | [], hMax => ([], hMax)
  | child :: rest, hMax =>
    let child1 := { child with h := child.hConfig.nat }
    let hMax1 := if child1.h > hMax then child1.h else hMax
    let p := Row.setHeights rest hMax1
    (child1 :: p.1, p.2)

/-- The second loop of `Row._completeLocalLayout`: stack the children
horizontally from a running x offset and set each child's y from the row's
height, the child's height and the justification (unrecognized values fall
through to the `default` branch of the switch). -/
def Row.placeChildren : List Child → ℚ → ℚ → String → List Child
  | [], _, _, _ => []
  | child :: rest, xpos, selfH, just =>
    let child1 := { child with x := xpos }
    let child2 :=
      { child1 with y :=
          match just with
          | "top" => 0
          | "center" => selfH / 2 - child1.h / 2
          | "bottom" => selfH - child1.h
          | _ => 0 }
    child2 :: Row.placeChildren rest (xpos + child1.w) selfH just

/-- Method `Row._completeLocalLayout`: early-return with no children; otherwise adjust
the children's widths, set their heights to natural while computing the
maximum, execute `this.h = this.hConfig.nat = hMax` (which writes the `nat`
field of the current height configuration in place and then sets the plain
height field), and finally stack and justify the children. -/
def Row.completeLocalLayout (r : Row) : Row :=
  if r.children.length = 0 then r
  else
    let r1 := Row.adjustChildren r
    let p := Row.setHeights r1.children 0
    let r2 :=
      { r1 with
        children := p.1
        hConfig := { r1.hConfig with nat := p.2 }
        h := p.2 }
    { r2 with children := Row.placeChildren r2.children 0 r2.h r2.hJustification }

/-- The loop body of `Column._measureChildren` (reads the height
configurations directly, as the source does). -/
def Column.measureLoop : List Child → ℚ → ℚ → Nat → ℚ × ℚ × Nat
  | [], natSum, availCompr, numSprings => (natSum, availCompr, numSprings)
  | child :: rest, natSum, availCompr, numSprings =>
    if child.isSpring then
      Column.measureLoop rest natSum availCompr (numSprings + 1)
    else
      Column.measureLoop rest (natSum + child.hConfig.nat)
        (availCompr + (child.hConfig.nat - child.hConfig.min)) numSprings

/-- Method `Column._measureChildren`: returns `(natSum, availCompr, numSprings)`. -/
def Column.measureChildren (cs : List Child) : ℚ × ℚ × Nat :=
  Column.measureLoop cs 0 0 0

/-- Method `Column._expandChildSprings`: even vertical share for every spring. -/
def Column.expandChildSprings (cs : List Child) (excess : ℚ) (numSprings : Nat) : List Child :=
  if numSprings = 0 then cs
  else
    let eachExcess := excess / (numSprings : ℚ)
    cs.map fun child => if child.isSpring then { child with h := eachExcess } else child

/-- Method `Column._compressChildren`: proportional vertical compression of the
non-spring children, floored at each child's configured min. -/
def Column.compressChildren (cs : List Child) (shortfall availCompr : ℚ) : List Child :=
  cs.map fun child =>
    if child.isSpring then child
    else
      let compr := child.hConfig.nat - child.hConfig.min
      let fraction := compr / availCompr
      { child with h := max child.hConfig.min (child.hConfig.nat - fraction * shortfall) }

/-- Method `Column._adjustChildren`: vertical mirror of `Row._adjustChildren`. -/
def Column.adjustChildren (c : Column) : Column :=
  let m := Column.measureChildren c.children
  let excess := c.h - m.1
  if 0 ≤ excess then
    { c with children := Column.expandChildSprings c.children excess m.2.2 }
  else
    let zeroed := c.children.map fun child =>
      if child.isSpring then { child with h := 0 } else child
    if m.2.1 = 0 then { c with children := zeroed }
    else
      let shortfall := min m.2.1 (-excess)
      { c with children := Column.compressChildren zeroed shortfall m.2.1 }

/-- The loop of `Column._doLocalSizing`: sum the height configurations and take
the piecewise maxima of the width configurations. -/
def Column.sizingLoop : List Child → SizingAcc → SizingAcc
  | [], acc => acc
  | child :: rest, acc =>
    Column.sizingLoop rest
      { minW := max acc.minW child.wConfig.min
        naturalW := max acc.naturalW child.wConfig.nat
        maxW := max acc.maxW child.wConfig.max
        minH := acc.minH + child.hConfig.min
        naturalH := acc.naturalH + child.hConfig.nat
        maxH := acc.maxH + child.hConfig.max }

/-- Method `Column._doLocalSizing`: height configuration becomes the componentwise sum
over the children, width configuration the componentwise running maximum. -/
def Column.doLocalSizing (c : Column) : Column :=
  let acc := Column.sizingLoop c.children ⟨0, 0, 0, 0, 0, 0⟩
  { c with
    hConfig := ⟨acc.naturalH, acc.minH, acc.maxH⟩
    wConfig := ⟨acc.naturalW, acc.minW, acc.maxW⟩ }

/-- The first loop of `Column._completeLocalLayout`: natural widths plus the
running maximum width. -/
def Column.setWidths : List Child → ℚ → List Child × ℚ
  | [], wMax => ([], wMax)
  | child :: rest, wMax =>
    let child1 := { child with w := child.wConfig.nat }
    let wMax1 := if child1.w > wMax then child1.w else wMax
    let p := Column.setWidths rest wMax1
    (child1 :: p.1, p.2)

/-- The second loop of `Column._completeLocalLayout`: stack vertically and
justify horizontally from `wJustification`. -/
def Column.placeChildren : List Child → ℚ → ℚ → String → List Child
  | [], _, _, _ => []
  | child :: rest, ypos, selfW, just =>
    let child1 := { child with y := ypos }
    let child2 :=
      { child1 with x :=
          match just with
          | "left" => 0
          | "center" => selfW / 2 - child1.w / 2
          | "right" => selfW - child1.w
          | _ => 0 }
    child2 :: Column.placeChildren rest (ypos + child1.h) selfW just

/-- Method `Column._completeLocalLayout`: vertical mirror of
`Row._completeLocalLayout`, including `this.w = this.wConfig.nat = wMax`. -/
def Column.completeLocalLayout (c : Column) : Column :=
  if c.children.length = 0 then c
  else
    let c1 := Column.adjustChildren c
    let p := Column.setWidths c1.children 0
    let c2 :=
      { c1 with
        children := p.1
        wConfig := { c1.wConfig with nat := p.2 }
        w := p.2 }
    { c2 with children := Column.placeChildren c2.children 0 c2.w c2.wJustification }

/-- The sizing pass followed by the placement pass on a single `Row`. -/
def Row.sizePlace (r : Row) : Row :=
  Row.completeLocalLayout (Row.doLocalSizing r)

/-- The sizing pass followed by the placement pass on a single `Column`. -/
def Column.sizePlace (c : Column) : Column :=
  Column.completeLocalLayout (Column.doLocalSizing c)

/-- Closed form of the width `Row._adjustChildren` assigns to one child, as a
function of the excess, the spring count and the available compression. -/
def Row.finalW (excess : ℚ) (numSprings : Nat) (availCompr : ℚ) (child : Child) : ℚ :=
  if 0 ≤ excess then
    if child.isSpring = true ∧ numSprings ≠ 0 then excess / (numSprings : ℚ) else child.w
  else if child.isSpring = true then 0
  else if availCompr = 0 then child.w
  else
    max child.wConfig.min
      (child.wConfig.nat -
        (child.wConfig.nat - child.wConfig.min) / availCompr * min availCompr (-excess))

/-- Closed form of the height `Column._adjustChildren` assigns to one child. -/
def Column.finalH (excess : ℚ) (numSprings : Nat) (availCompr : ℚ) (child : Child) : ℚ :=
  if 0 ≤ excess then
    if child.isSpring = true ∧ numSprings ≠ 0 then excess / (numSprings : ℚ) else child.h
  else if child.isSpring = true then 0
  else if availCompr = 0 then child.h
  else
    max child.hConfig.min
      (child.hConfig.nat -
        (child.hConfig.nat - child.hConfig.min) / availCompr * min availCompr (-excess))

/-- The y coordinate `Row._completeLocalLayout` gives a child of height `hc`
inside a row of height `selfH` under justification `just`. -/
def Row.yJust (selfH : ℚ) (just : String) (hc : ℚ) : ℚ :=
  match just with
  | "top" => 0
  | "center" => selfH / 2 - hc / 2
  | "bottom" => selfH - hc
  | _ => 0

/-- The x coordinate `Column._completeLocalLayout` gives a child of width `wc`
inside a column of width `selfW` under justification `just`. -/
def Column.xJust (selfW : ℚ) (just : String) (wc : ℚ) : ℚ :=
  match just with
  | "left" => 0
  | "center" => selfW / 2 - wc / 2
  | "right" => selfW - wc
  | _ => 0

/-- Normal form of the child list produced by `Row._completeLocalLayout`:
widths from `wF`, heights from the natural heights, x positions packed from a
running offset, y positions from the justification. -/
def Row.layoutKids (wF : Child → ℚ) (selfH : ℚ) (just : String) :
    List Child → ℚ → List Child
  | [], _ => []
  | child :: rest, xpos =>
    { child with
      w := wF child
      h := child.hConfig.nat
      x := xpos
      y := Row.yJust selfH just child.hConfig.nat } ::
      Row.layoutKids wF selfH just rest (xpos + wF child)

/-- Normal form of the child list produced by `Column._completeLocalLayout`. -/
def Column.layoutKids (hF : Child → ℚ) (selfW : ℚ) (just : String) :
    List Child → ℚ → List Child
  | [], _ => []
  | child :: rest, ypos =>
    { child with
      h := hF child
      w := child.wConfig.nat
      y := ypos
      x := Column.xJust selfW just child.wConfig.nat } ::
      Column.layoutKids hF selfW just rest (ypos + hF child)

/-- The running maximum of the children's natural heights, as computed by the
first loop of `Row._completeLocalLayout` (starting from 0). -/
def Row.hMaxOf (cs : List Child) : ℚ :=
  (cs.map fun c => c.hConfig.nat).foldr max 0

/-- The running maximum of the children's natural widths, as computed by the
first loop of `Column._completeLocalLayout` (starting from 0). -/
def Column.wMaxOf (cs : List Child) : ℚ :=
  (cs.map fun c => c.wConfig.nat).foldr max 0

/-- A non-spring demo child with natural width 8, min width 2. -/
def demoKidA : Child := ⟨0, 0, 8, 0, ⟨8, 2, (8 : ℚ)⟩, ⟨3, 3, (3 : ℚ)⟩, false⟩

/-- A non-spring demo child with natural width 8, min width 4. -/
def demoKidB : Child := ⟨0, 0, 8, 0, ⟨8, 4, (8 : ℚ)⟩, ⟨2, 2, (2 : ℚ)⟩, false⟩

/-- A demo child playing the role of a 20-wide strut. -/
def demoStrut : Child := ⟨0, 0, 20, 0, SizeConfig.fixed 20, SizeConfig.fixed 5, false⟩

/-- A demo spring child. -/
def demoSpring : Child := ⟨0, 0, 0, 0, SizeConfig.elastic 0, SizeConfig.elastic 0, true⟩

/-- Transposed copies of the demo children for `Column` witnesses (the same
constraints placed on the height axis). -/
def demoKidAT : Child := ⟨0, 0, 0, 8, ⟨3, 3, (3 : ℚ)⟩, ⟨8, 2, (8 : ℚ)⟩, false⟩

/-- Transposed copy of `demoKidB` for `Column` witnesses. -/
def demoKidBT : Child := ⟨0, 0, 0, 8, ⟨2, 2, (2 : ℚ)⟩, ⟨8, 4, (8 : ℚ)⟩, false⟩

/-- Transposed copy of `demoStrut` for `Column` witnesses. -/
def demoStrutT : Child := ⟨0, 0, 0, 20, SizeConfig.fixed 5, SizeConfig.fixed 20, false⟩

/-- Demo row of width 10 holding `demoKidA` and `demoKidB` (the shortfall
compression scenario: natSum 16, availCompr 10, shortfall 6). -/
def demoRow10 : Row :=
  ⟨0, 0, 10, 13, SizeConfig.fixed 10, SizeConfig.elastic 13, "top", [demoKidA, demoKidB]⟩

/-- Demo row of width 100 holding strut, spring, strut. -/
def demoRow100 : Row :=
  ⟨0, 0, 100, 13, SizeConfig.fixed 100, SizeConfig.elastic 13, "top",
    [demoStrut, demoSpring, demoStrut]⟩

/-- Demo column of height 10 (transposed compression scenario). -/
def demoCol10 : Column :=
  ⟨0, 0, 13, 10, SizeConfig.elastic 13, SizeConfig.fixed 10, "left", [demoKidAT, demoKidBT]⟩

/-- Demo column of height 100 holding strut, spring, strut. -/
def demoCol100 : Column :=
  ⟨0, 0, 13, 100, SizeConfig.elastic 13, SizeConfig.fixed 100, "left",
    [demoStrutT, demoSpring, demoStrutT]⟩

/-- A non-spring child whose current width 3 differs from its natural width 5;
used to refute the unconditional reading of claim C4. -/
def demoStale : Child := ⟨0, 0, 3, 0, SizeConfig.fixed 5, SizeConfig.fixed 1, false⟩

/-- A row of width 20 around `demoStale`: excess is 15 ≥ 0. -/
def demoRowStale : Row :=
  ⟨0, 0, 20, 13, SizeConfig.fixed 20, SizeConfig.elastic 13, "top", [demoStale]⟩

/-- A row whose height configuration is `elastic 13`; running the placement
pass overwrites the `nat` field of that configuration in place. -/
def demoRowC8 : Row :=
  ⟨0, 0, 42, 13, SizeConfig.fixed 42, SizeConfig.elastic 13, "top", [demoStrut]⟩

/-- A row of width 10 around an incompressible strut of natural width 20 and a
spring: shortfall with zero available compression. -/
def demoRowShort : Row :=
  ⟨0, 0, 10, 13, SizeConfig.fixed 10, SizeConfig.elastic 13, "top",
    [demoStrut, demoSpring]⟩

/-- A column of height 10 around an incompressible strut of natural height 20
and a spring: shortfall with zero available compression. -/
def demoColShort : Column :=
  ⟨0, 0, 13, 10, SizeConfig.elastic 13, SizeConfig.fixed 10, "left",
    [demoStrutT, demoSpring]⟩

/-- A column around a child whose current height 3 differs from its natural
height 5 (transpose of `demoRowStale`). -/
def demoColStale : Column :=
  ⟨0, 0, 13, 20, SizeConfig.elastic 13, SizeConfig.fixed 20, "left",
    [⟨0, 0, 0, 3, SizeConfig.fixed 1, SizeConfig.fixed 5, false⟩]⟩

/-- A column whose width configuration is `elastic 13`; running the placement
pass overwrites the `nat` field of that configuration in place. -/
def demoColC8 : Column :=
  ⟨0, 0, 13, 42, SizeConfig.elastic 13, SizeConfig.fixed 42, "left", [demoStrutT]⟩

/-! ### Generic list lemmas -/

/-- The running-maximum update written with `if` agrees with `max`. -/
theorem ite_gt_eq_max {α : Type} [LinearOrder α] (a b : α) :
    (if b > a then b else a) = max a b := by
  rcases le_or_lt b a with h | h
  · simp [not_lt.mpr h, max_eq_left h]
  · simp [h, max_eq_right h.le]

/-- Pulling one `max` argument out of a right fold. -/
theorem foldr_max_init {α : Type} [LinearOrder α] (a b : α) (l : List α) :
    l.foldr max (max a b) = max a (l.foldr max b) := by
  induction l with
  | nil => rfl
  | cons x t ih => simp [List.foldr_cons, ih, max_left_comm]

/-- Left and right folds of `max` agree. -/
theorem foldl_max_eq_foldr {α : Type} [LinearOrder α] (l : List α) (a : α) :
    l.foldl max a = l.foldr max a := by
  induction l generalizing a with
  | nil => rfl
  | cons x t ih =>
    rw [List.foldl_cons, ih, max_comm a x, foldr_max_init, List.foldr_cons]

/-- The seed is a lower bound of a `max` fold. -/
theorem le_foldr_max_self {α : Type} [LinearOrder α] (a : α) (l : List α) :
    a ≤ l.foldr max a := by
  induction l with
  | nil => simp
  | cons x t ih => exact le_trans ih (le_max_right x _)

/-- Every member is a lower bound of a `max` fold. -/
theorem le_foldr_max_of_mem {α : Type} [LinearOrder α] {x : α} {l : List α} (a : α)
    (hx : x ∈ l) : x ≤ l.foldr max a := by
  induction l with
  | nil => cases hx
  | cons y t ih =>
    rcases List.mem_cons.mp hx with h | h
    · subst h; exact le_max_left _ _
    · exact le_trans (ih h) (le_max_right _ _)

/-- A `max` fold over a non-empty list whose members dominate the seed is
attained by a member. -/
theorem foldr_max_mem {α : Type} [LinearOrder α] (d : α) (l : List α) (hne : l ≠ [])
    (hd : ∀ x ∈ l, d ≤ x) : l.foldr max d ∈ l := by
  induction l with
  | nil => exact absurd rfl hne
  | cons x t ih =>
    rcases eq_or_ne t [] with ht | ht
    · subst ht
      simp [max_eq_left (hd x (by simp))]
    · rcases le_total x (t.foldr max d) with h | h
      · have hm := ih ht fun y hy => hd y (List.mem_cons_of_mem _ hy)
        rw [List.foldr_cons, max_eq_right h]
        exact List.mem_cons_of_mem _ hm
      · rw [List.foldr_cons, max_eq_left h]
        exact List.mem_cons_self _ _

/-- A map that fixes every member of a list is the identity on that list. -/
theorem map_eq_self {α : Type} {f : α → α} {l : List α} (h : ∀ a ∈ l, f a = a) :
    l.map f = l := by
  induction l with
  | nil => rfl
  | cons x t ih => rw [List.map_cons, h x (by simp), ih fun a ha => h a (by simp [ha])]

/-- Sum over a prefix of a mapped list, extended by one element. -/
theorem sum_take_map_succ {α : Type} (f : α → ℚ) (l : List α) :
    ∀ (i : Nat) (hi : i < l.length),
      ((l.take (i + 1)).map f).sum = ((l.take i).map f).sum + f (l.get ⟨i, hi⟩) := by
  induction l with
  | nil => intro i hi; simp at hi
  | cons x t ih =>
    intro i hi
    cases i with
    | zero => simp
    | succ n =>
      have hn : n < t.length := by simpa using hi
      rw [List.take_succ_cons, List.map_cons, List.sum_cons, ih n hn,
        List.take_succ_cons, List.map_cons, List.sum_cons]
      rw [List.get_cons_succ]
      ring

/-! ### Measurement characterizations -/

/-- The measuring loop accumulates the non-spring natural sum, the non-spring
compression sum and the spring count. -/
theorem Row.measureLoop_eq (cs : List Child) :
    ∀ (a b : ℚ) (n : Nat),
      Row.measureLoop cs a b n =
        (a + ((cs.filter fun c => !c.isSpring).map fun c => c.wConfig.nat).sum,
         b + ((cs.filter fun c => !c.isSpring).map
            fun c => c.wConfig.nat - c.wConfig.min).sum,
         n + cs.countP fun c => c.isSpring) := by
  induction cs with
  | nil => intro a b n; simp [Row.measureLoop]
  | cons c t ih =>
    intro a b n
    by_cases hs : c.isSpring
    · simp [Row.measureLoop, hs, ih, List.countP_cons, Prod.ext_iff]
      omega
    · simp [Row.measureLoop, hs, ih, List.countP_cons, Child.naturalW, Child.minW,
        Prod.ext_iff]
      constructor
      · ring
      · ring

/-- Closed form of `Row._measureChildren`. -/
theorem Row.measureChildren_eq (cs : List Child) :
    Row.measureChildren cs =
      (((cs.filter fun c => !c.isSpring).map fun c => c.wConfig.nat).sum,
       ((cs.filter fun c => !c.isSpring).map fun c => c.wConfig.nat - c.wConfig.min).sum,
       cs.countP fun c => c.isSpring) := by
  simp [Row.measureChildren, Row.measureLoop_eq]

/-- The measuring loop of `Column` mirrored. -/
theorem Column.measureLoop_eq_col (cs : List Child) :
    ∀ (a b : ℚ) (n : Nat),
      Column.measureLoop cs a b n =
        (a + ((cs.filter fun c => !c.isSpring).map fun c => c.hConfig.nat).sum,
         b + ((cs.filter fun c => !c.isSpring).map
            fun c => c.hConfig.nat - c.hConfig.min).sum,
         n + cs.countP fun c => c.isSpring) := by
  induction cs with
  | nil => intro a b n; simp [Column.measureLoop]
  | cons c t ih =>
    intro a b n
    by_cases hs : c.isSpring
    · simp [Column.measureLoop, hs, ih, List.countP_cons, Prod.ext_iff]
      omega
    · simp [Column.measureLoop, hs, ih, List.countP_cons, Prod.ext_iff]
      constructor
      · ring
      · ring

/-- Closed form of `Column._measureChildren`. -/
theorem Column.measureChildren_eq_col (cs : List Child) :
    Column.measureChildren cs =
      (((cs.filter fun c => !c.isSpring).map fun c => c.hConfig.nat).sum,
       ((cs.filter fun c => !c.isSpring).map fun c => c.hConfig.nat - c.hConfig.min).sum,
       cs.countP fun c => c.isSpring) := by
  simp [Column.measureChildren, Column.measureLoop_eq_col]

/-! ### Compression lemmas -/

/-- Under the data-model invariant `min ≤ nat` and a pre-clamped shortfall the
`max(min, ...)` guard of `_compressChildren` never binds. -/
theorem compress_step_eq (nt mn S A : ℚ) (hmn : mn ≤ nt) (hS : S ≤ A) (hA : 0 < A) :
    max mn (nt - (nt - mn) / A * S) = nt - (nt - mn) / A * S := by
  apply max_eq_right
  have hc : 0 ≤ nt - mn := sub_nonneg.mpr hmn
  have h1 : (nt - mn) / A * S ≤ (nt - mn) / A * A :=
    mul_le_mul_of_nonneg_left hS (div_nonneg hc hA.le)
  rw [div_mul_cancel₀ _ hA.ne'] at h1
  linarith

/-- Total width removed by `Row._compressChildren` from the non-spring
children, as a fraction of their total compressibility. -/
theorem Row.compress_sum (cs : List Child) (S A : ℚ)
    (hwf : ∀ c ∈ cs, c.wConfig.min ≤ c.wConfig.nat) (hS : S ≤ A) (hA : 0 < A) :
    (((Row.compressChildren cs S A).filter fun c => !c.isSpring).map
        fun c => c.wConfig.nat - c.w).sum
      = ((cs.filter fun c => !c.isSpring).map
          fun c => c.wConfig.nat - c.wConfig.min).sum / A * S := by
  induction cs with
  | nil => simp [Row.compressChildren]
  | cons c t ih =>
    have iht := ih fun a ha => hwf a (List.mem_cons_of_mem _ ha)
    by_cases hs : c.isSpring
    · simpa [Row.compressChildren, hs] using iht
    · have hc := hwf c (List.mem_cons_self _ _)
      have hstep := compress_step_eq c.wConfig.nat c.wConfig.min S A hc hS hA
      simp only [Row.compressChildren, List.map_cons] at iht ⊢
      simp only [hs, if_neg (by simp [hs] : ¬(c.isSpring = true))]
      simp [List.filter_cons, hs, hstep, iht]
      ring

/-- Total height removed by `Column._compressChildren` from the non-spring
children. -/
theorem Column.compress_sum_col (cs : List Child) (S A : ℚ)
    (hwf : ∀ c ∈ cs, c.hConfig.min ≤ c.hConfig.nat) (hS : S ≤ A) (hA : 0 < A) :
    (((Column.compressChildren cs S A).filter fun c => !c.isSpring).map
        fun c => c.hConfig.nat - c.h).sum
      = ((cs.filter fun c => !c.isSpring).map
          fun c => c.hConfig.nat - c.hConfig.min).sum / A * S := by
  induction cs with
  | nil => simp [Column.compressChildren]
  | cons c t ih =>
    have iht := ih fun a ha => hwf a (List.mem_cons_of_mem _ ha)
    by_cases hs : c.isSpring
    · simpa [Column.compressChildren, hs] using iht
    · have hc := hwf c (List.mem_cons_self _ _)
      have hstep := compress_step_eq c.hConfig.nat c.hConfig.min S A hc hS hA
      simp only [Column.compressChildren, List.map_cons] at iht ⊢
      simp only [hs, if_neg (by simp [hs] : ¬(c.isSpring = true))]
      simp [List.filter_cons, hs, hstep, iht]
      ring

/-- C1: for shortfall `0 < S ≤ availCompr` with `availCompr > 0` as computed by
`_measureChildren`, `_compressChildren` gives every non-spring child the
primary-axis size `max(min, nat - (nat - min)/availCompr * S)`; the removed
sizes add up to exactly `S` and no non-spring child ends below its min (for
both `Row` and `Column`). -/
theorem claim_C1 :
    (∀ (cs : List Child) (S A : ℚ),
      A = (Row.measureChildren cs).2.1 → 0 < S → S ≤ A → 0 < A →
      (∀ c ∈ cs, c.wConfig.min ≤ c.wConfig.nat) →
      (Row.compressChildren cs S A).length = cs.length ∧
      (∀ (i : Nat) (hi : i < cs.length) (hi2 : i < (Row.compressChildren cs S A).length),
        (cs.get ⟨i, hi⟩).isSpring = false →
        ((Row.compressChildren cs S A).get ⟨i, hi2⟩).w =
          max (cs.get ⟨i, hi⟩).wConfig.min
            ((cs.get ⟨i, hi⟩).wConfig.nat -
              ((cs.get ⟨i, hi⟩).wConfig.nat - (cs.get ⟨i, hi⟩).wConfig.min) / A * S)) ∧
      (((Row.compressChildren cs S A).filter fun c => !c.isSpring).map
          fun c => c.wConfig.nat - c.w).sum = S ∧
      (∀ c ∈ Row.compressChildren cs S A, c.isSpring = false → c.wConfig.min ≤ c.w)) ∧
    (∀ (cs : List Child) (S A : ℚ),
      A = (Column.measureChildren cs).2.1 → 0 < S → S ≤ A → 0 < A →
      (∀ c ∈ cs, c.hConfig.min ≤ c.hConfig.nat) →
      (Column.compressChildren cs S A).length = cs.length ∧
      (∀ (i : Nat) (hi : i < cs.length) (hi2 : i < (Column.compressChildren cs S A).length),
        (cs.get ⟨i, hi⟩).isSpring = false →
        ((Column.compressChildren cs S A).get ⟨i, hi2⟩).h =
          max (cs.get ⟨i, hi⟩).hConfig.min
            ((cs.get ⟨i, hi⟩).hConfig.nat -
              ((cs.get ⟨i, hi⟩).hConfig.nat - (cs.get ⟨i, hi⟩).hConfig.min) / A * S)) ∧
      (((Column.compressChildren cs S A).filter fun c => !c.isSpring).map
          fun c => c.hConfig.nat - c.h).sum = S ∧
      (∀ c ∈ Column.compressChildren cs S A, c.isSpring = false → c.hConfig.min ≤ c.h)) := by
  constructor
  · intro cs S A hA0 hSpos hSA hApos hwf
    refine ⟨by simp [Row.compressChildren], ?_, ?_, ?_⟩
    · intro i hi hi2 hns
      simp only [List.get_eq_getElem] at hns ⊢
      simp [Row.compressChildren, List.getElem_map, hns]
    · have hsum : ((cs.filter fun c => !c.isSpring).map
          fun c => c.wConfig.nat - c.wConfig.min).sum = A := by
        rw [hA0, Row.measureChildren_eq]
      rw [Row.compress_sum cs S A hwf hSA hApos, hsum, div_self hApos.ne', one_mul]
    · intro c' hc' hns
      obtain ⟨a, ha, rfl⟩ := List.mem_map.mp hc'
      by_cases hs : a.isSpring
      · simp [hs] at hns
      · simp [hs]
  · intro cs S A hA0 hSpos hSA hApos hwf
    refine ⟨by simp [Column.compressChildren], ?_, ?_, ?_⟩
    · intro i hi hi2 hns
      simp only [List.get_eq_getElem] at hns ⊢
      simp [Column.compressChildren, List.getElem_map, hns]
    · have hsum : ((cs.filter fun c => !c.isSpring).map
          fun c => c.hConfig.nat - c.hConfig.min).sum = A := by
        rw [hA0, Column.measureChildren_eq_col]
      rw [Column.compress_sum_col cs S A hwf hSA hApos, hsum, div_self hApos.ne', one_mul]
    · intro c' hc' hns
      obtain ⟨a, ha, rfl⟩ := List.mem_map.mp hc'
      by_cases hs : a.isSpring
      · simp [hs] at hns
      · simp [hs]

/-- Witness for C1 at the shortfall scenario of the spec: two children with
(nat 8, min 2) and (nat 8, min 4), shortfall 6 against availCompr 10. -/
theorem claim_C1_witness :
    ((10 : ℚ) = (Row.measureChildren [demoKidA, demoKidB]).2.1 ∧ (0 : ℚ) < 6 ∧
      (6 : ℚ) ≤ 10 ∧
      (((Row.compressChildren [demoKidA, demoKidB] 6 10).filter
          fun c => !c.isSpring).map fun c => c.wConfig.nat - c.w).sum = 6) ∧
    ((10 : ℚ) = (Column.measureChildren [demoKidAT, demoKidBT]).2.1 ∧
      (((Column.compressChildren [demoKidAT, demoKidBT] 6 10).filter
          fun c => !c.isSpring).map fun c => c.hConfig.nat - c.h).sum = 6) :=
  ⟨⟨by rw [Row.measureChildren_eq]; norm_num [demoKidA, demoKidB], by norm_num,
      by norm_num,
      (claim_C1.1 [demoKidA, demoKidB] 6 10
        (by rw [Row.measureChildren_eq]; norm_num [demoKidA, demoKidB]) (by norm_num)
        (by norm_num) (by norm_num)
        (by norm_num [List.forall_mem_cons, demoKidA, demoKidB])).2.2.1⟩,
    ⟨by rw [Column.measureChildren_eq_col]; norm_num [demoKidAT, demoKidBT],
      (claim_C1.2 [demoKidAT, demoKidBT] 6 10
        (by rw [Column.measureChildren_eq_col]; norm_num [demoKidAT, demoKidBT]) (by norm_num)
        (by norm_num) (by norm_num)
        (by norm_num [List.forall_mem_cons, demoKidAT, demoKidBT])).2.2.1⟩⟩

/-! ### Spring expansion lemmas -/

/-- Summing the widths of the springs after giving each spring width `e`. -/
theorem Row.expand_spring_sum (cs : List Child) (e : ℚ) :
    (((cs.map fun c => if c.isSpring then { c with w := e } else c).filter
        fun c => c.isSpring).map fun c => c.w).sum
      = ((cs.countP fun c => c.isSpring : Nat) : ℚ) * e := by
  induction cs with
  | nil => simp
  | cons c t ih =>
    by_cases hs : c.isSpring
    · simp only [List.map_cons, hs, if_pos, List.filter_cons, List.countP_cons]
      simp [hs, ih]
      ring
    · simp only [List.map_cons, if_neg (by simp [hs] : ¬(c.isSpring = true)),
        List.filter_cons, List.countP_cons]
      simp [hs, ih]

/-- Summing the heights of the springs after giving each spring height `e`. -/
theorem Column.expand_spring_sum_col (cs : List Child) (e : ℚ) :
    (((cs.map fun c => if c.isSpring then { c with h := e } else c).filter
        fun c => c.isSpring).map fun c => c.h).sum
      = ((cs.countP fun c => c.isSpring : Nat) : ℚ) * e := by
  induction cs with
  | nil => simp
  | cons c t ih =>
    by_cases hs : c.isSpring
    · simp only [List.map_cons, hs, if_pos, List.filter_cons, List.countP_cons]
      simp [hs, ih]
      ring
    · simp only [List.map_cons, if_neg (by simp [hs] : ¬(c.isSpring = true)),
        List.filter_cons, List.countP_cons]
      simp [hs, ih]

/-- C3: with `n = numSprings` as measured and excess `E ≥ 0`,
`_expandChildSprings` does nothing when `n = 0`; otherwise it sets every
spring's primary-axis size to exactly `E/n` (so the spring sizes sum to `E`)
and leaves every non-spring child untouched (for both `Row` and `Column`). -/
theorem claim_C3 :
    (∀ (cs : List Child) (E : ℚ) (n : Nat),
      n = (Row.measureChildren cs).2.2 → 0 ≤ E →
      (n = 0 → Row.expandChildSprings cs E n = cs) ∧
      (n ≠ 0 →
        (Row.expandChildSprings cs E n).length = cs.length ∧
        (∀ (i : Nat) (hi : i < cs.length)
          (hi2 : i < (Row.expandChildSprings cs E n).length),
          ((cs.get ⟨i, hi⟩).isSpring = true →
            ((Row.expandChildSprings cs E n).get ⟨i, hi2⟩).w = E / (n : ℚ)) ∧
          ((cs.get ⟨i, hi⟩).isSpring = false →
            (Row.expandChildSprings cs E n).get ⟨i, hi2⟩ = cs.get ⟨i, hi⟩)) ∧
        (((Row.expandChildSprings cs E n).filter fun c => c.isSpring).map
            fun c => c.w).sum = E)) ∧
    (∀ (cs : List Child) (E : ℚ) (n : Nat),
      n = (Column.measureChildren cs).2.2 → 0 ≤ E →
      (n = 0 → Column.expandChildSprings cs E n = cs) ∧
      (n ≠ 0 →
        (Column.expandChildSprings cs E n).length = cs.length ∧
        (∀ (i : Nat) (hi : i < cs.length)
          (hi2 : i < (Column.expandChildSprings cs E n).length),
          ((cs.get ⟨i, hi⟩).isSpring = true →
            ((Column.expandChildSprings cs E n).get ⟨i, hi2⟩).h = E / (n : ℚ)) ∧
          ((cs.get ⟨i, hi⟩).isSpring = false →
            (Column.expandChildSprings cs E n).get ⟨i, hi2⟩ = cs.get ⟨i, hi⟩)) ∧
        (((Column.expandChildSprings cs E n).filter fun c => c.isSpring).map
            fun c => c.h).sum = E)) := by
  constructor
  · intro cs E n hn hE
    constructor
    · intro h0
      simp [Row.expandChildSprings, h0]
    · intro h0
      refine ⟨by simp [Row.expandChildSprings, h0], ?_, ?_⟩
      · intro i hi hi2
        constructor
        · intro hsp
          simp only [List.get_eq_getElem] at hsp ⊢
          simp [Row.expandChildSprings, h0, List.getElem_map, hsp]
        · intro hsp
          simp only [List.get_eq_getElem] at hsp ⊢
          simp [Row.expandChildSprings, h0, List.getElem_map, hsp]
      · have hcount : (Row.measureChildren cs).2.2 = cs.countP fun c => c.isSpring := by
          rw [Row.measureChildren_eq]
        have hnq : ((n : ℚ)) ≠ 0 := by
          exact_mod_cast h0
        simp only [Row.expandChildSprings, if_neg h0]
        rw [Row.expand_spring_sum, ← hcount, ← hn, mul_comm, div_mul_cancel₀ E hnq]
  · intro cs E n hn hE
    constructor
    · intro h0
      simp [Column.expandChildSprings, h0]
    · intro h0
      refine ⟨by simp [Column.expandChildSprings, h0], ?_, ?_⟩
      · intro i hi hi2
        constructor
        · intro hsp
          simp only [List.get_eq_getElem] at hsp ⊢
          simp [Column.expandChildSprings, h0, List.getElem_map, hsp]
        · intro hsp
          simp only [List.get_eq_getElem] at hsp ⊢
          simp [Column.expandChildSprings, h0, List.getElem_map, hsp]
      · have hcount : (Column.measureChildren cs).2.2 = cs.countP fun c => c.isSpring := by
          rw [Column.measureChildren_eq_col]
        have hnq : ((n : ℚ)) ≠ 0 := by
          exact_mod_cast h0
        simp only [Column.expandChildSprings, if_neg h0]
        rw [Column.expand_spring_sum_col, ← hcount, ← hn, mul_comm, div_mul_cancel₀ E hnq]

/-- Witness for C3 on the strut/spring/strut scenario with excess 60 and one
spring. -/
theorem claim_C3_witness :
    ((1 : Nat) = (Row.measureChildren [demoStrut, demoSpring, demoStrut]).2.2 ∧
      (0 : ℚ) ≤ 60 ∧
      (((Row.expandChildSprings [demoStrut, demoSpring, demoStrut] 60 1).filter
          fun c => c.isSpring).map fun c => c.w).sum = 60) ∧
    ((1 : Nat) = (Column.measureChildren [demoStrutT, demoSpring, demoStrutT]).2.2 ∧
      (((Column.expandChildSprings [demoStrutT, demoSpring, demoStrutT] 60 1).filter
          fun c => c.isSpring).map fun c => c.h).sum = 60) :=
  ⟨⟨by rw [Row.measureChildren_eq]; norm_num [demoStrut, demoSpring], by norm_num,
      ((claim_C3.1 [demoStrut, demoSpring, demoStrut] 60 1
          (by rw [Row.measureChildren_eq]; norm_num [demoStrut, demoSpring])
          (by norm_num)).2 (by norm_num)).2.2⟩,
    ⟨by rw [Column.measureChildren_eq_col]; norm_num [demoStrutT, demoSpring],
      ((claim_C3.2 [demoStrutT, demoSpring, demoStrutT] 60 1
          (by rw [Column.measureChildren_eq_col]; norm_num [demoStrutT, demoSpring])
          (by norm_num)).2 (by norm_num)).2.2⟩⟩

/-! ### Shortfall with zero compressibility (claim C7) -/

/-- Branch characterization of `Row._adjustChildren` on a shortfall with zero
available compression: the method only zeroes the springs and returns. -/
theorem Row.adjust_shortfall_noCompr (r : Row)
    (hE : r.w - (Row.measureChildren r.children).1 < 0)
    (hA : (Row.measureChildren r.children).2.1 = 0) :
    Row.adjustChildren r =
      { r with children := r.children.map fun child =>
          if child.isSpring then { child with w := 0 } else child } := by
  simp only [Row.adjustChildren]
  split
  · next hc => exact absurd hc (not_le.mpr hE)
  · simp [hA]

/-- Branch characterization of `Column._adjustChildren` on a shortfall with
zero available compression. -/
theorem Column.adjust_shortfall_noCompr_col (c : Column)
    (hE : c.h - (Column.measureChildren c.children).1 < 0)
    (hA : (Column.measureChildren c.children).2.1 = 0) :
    Column.adjustChildren c =
      { c with children := c.children.map fun child =>
          if child.isSpring then { child with h := 0 } else child } := by
  simp only [Column.adjustChildren]
  split
  · next hc => exact absurd hc (not_le.mpr hE)
  · simp [hA]

/-- C7: on a shortfall (`excess < 0`) with `availCompr = 0`, `_adjustChildren`
zeroes every spring's primary-axis size, leaves every non-spring child
untouched, and leaves the container itself unchanged — it simply returns, the
shortfall staying unresolved (for both `Row` and `Column`; in this model every
operation is a total function, so no error can be raised). -/
theorem claim_C7 :
    (∀ r : Row,
      r.w - (Row.measureChildren r.children).1 < 0 →
      (Row.measureChildren r.children).2.1 = 0 →
      (Row.adjustChildren r).x = r.x ∧ (Row.adjustChildren r).y = r.y ∧
      (Row.adjustChildren r).w = r.w ∧ (Row.adjustChildren r).h = r.h ∧
      (Row.adjustChildren r).wConfig = r.wConfig ∧
      (Row.adjustChildren r).hConfig = r.hConfig ∧
      (Row.adjustChildren r).hJustification = r.hJustification ∧
      (Row.adjustChildren r).children.length = r.children.length ∧
      (∀ (i : Nat) (hi : i < r.children.length)
        (hi2 : i < (Row.adjustChildren r).children.length),
        ((r.children.get ⟨i, hi⟩).isSpring = true →
          (Row.adjustChildren r).children.get ⟨i, hi2⟩ =
            { r.children.get ⟨i, hi⟩ with w := 0 }) ∧
        ((r.children.get ⟨i, hi⟩).isSpring = false →
          (Row.adjustChildren r).children.get ⟨i, hi2⟩ = r.children.get ⟨i, hi⟩))) ∧
    (∀ c : Column,
      c.h - (Column.measureChildren c.children).1 < 0 →
      (Column.measureChildren c.children).2.1 = 0 →
      (Column.adjustChildren c).x = c.x ∧ (Column.adjustChildren c).y = c.y ∧
      (Column.adjustChildren c).w = c.w ∧ (Column.adjustChildren c).h = c.h ∧
      (Column.adjustChildren c).wConfig = c.wConfig ∧
      (Column.adjustChildren c).hConfig = c.hConfig ∧
      (Column.adjustChildren c).wJustification = c.wJustification ∧
      (Column.adjustChildren c).children.length = c.children.length ∧
      (∀ (i : Nat) (hi : i < c.children.length)
        (hi2 : i < (Column.adjustChildren c).children.length),
        ((c.children.get ⟨i, hi⟩).isSpring = true →
          (Column.adjustChildren c).children.get ⟨i, hi2⟩ =
            { c.children.get ⟨i, hi⟩ with h := 0 }) ∧
        ((c.children.get ⟨i, hi⟩).isSpring = false →
          (Column.adjustChildren c).children.get ⟨i, hi2⟩ = c.children.get ⟨i, hi⟩))) := by
  constructor
  · intro r hE hA
    rw [Row.adjust_shortfall_noCompr r hE hA]
    refine ⟨rfl, rfl, rfl, rfl, rfl, rfl, rfl, by simp, ?_⟩
    intro i hi hi2
    constructor
    · intro hsp
      simp only [List.get_eq_getElem] at hsp ⊢
      simp [List.getElem_map, hsp]
    · intro hsp
      simp only [List.get_eq_getElem] at hsp ⊢
      simp [List.getElem_map, hsp]
  · intro c hE hA
    rw [Column.adjust_shortfall_noCompr_col c hE hA]
    refine ⟨rfl, rfl, rfl, rfl, rfl, rfl, rfl, by simp, ?_⟩
    intro i hi hi2
    constructor
    · intro hsp
      simp only [List.get_eq_getElem] at hsp ⊢
      simp [List.getElem_map, hsp]
    · intro hsp
      simp only [List.get_eq_getElem] at hsp ⊢
      simp [List.getElem_map, hsp]

/-- Witness for C7: a 10-wide row (10-tall column) around an incompressible
20-long strut and a spring. -/
theorem claim_C7_witness :
    (demoRowShort.w - (Row.measureChildren demoRowShort.children).1 < 0 ∧
      (Row.measureChildren demoRowShort.children).2.1 = 0 ∧
      (Row.adjustChildren demoRowShort).w = demoRowShort.w) ∧
    (demoColShort.h - (Column.measureChildren demoColShort.children).1 < 0 ∧
      (Column.measureChildren demoColShort.children).2.1 = 0 ∧
      (Column.adjustChildren demoColShort).h = demoColShort.h) :=
  ⟨⟨(by rw [Row.measureChildren_eq]; norm_num [demoRowShort, demoStrut, demoSpring,
        SizeConfig.fixed, SizeConfig.elastic]),
    (by rw [Row.measureChildren_eq]; norm_num [demoRowShort, demoStrut, demoSpring,
        SizeConfig.fixed, SizeConfig.elastic]),
    (claim_C7.1 demoRowShort
      (by rw [Row.measureChildren_eq]; norm_num [demoRowShort, demoStrut, demoSpring,
          SizeConfig.fixed, SizeConfig.elastic])
      (by rw [Row.measureChildren_eq]; norm_num [demoRowShort, demoStrut, demoSpring,
          SizeConfig.fixed, SizeConfig.elastic])).2.2.1⟩,
   ⟨(by rw [Column.measureChildren_eq_col]; norm_num [demoColShort, demoStrutT, demoSpring,
        SizeConfig.fixed, SizeConfig.elastic]),
    (by rw [Column.measureChildren_eq_col]; norm_num [demoColShort, demoStrutT, demoSpring,
        SizeConfig.fixed, SizeConfig.elastic]),
    (claim_C7.2 demoColShort
      (by rw [Column.measureChildren_eq_col]; norm_num [demoColShort, demoStrutT, demoSpring,
          SizeConfig.fixed, SizeConfig.elastic])
      (by rw [Column.measureChildren_eq_col]; norm_num [demoColShort, demoStrutT, demoSpring,
          SizeConfig.fixed, SizeConfig.elastic])).2.2.2.1⟩⟩

/-! ### Positive excess (claim C4) -/

/-- Branch characterization of `Row._adjustChildren` when the excess is
non-negative: it only runs the spring expansion. -/
theorem Row.adjust_excess (r : Row)
    (hE : 0 ≤ r.w - (Row.measureChildren r.children).1) :
    Row.adjustChildren r =
      { r with children := (Row.expandChildSprings r.children
          (r.w - (Row.measureChildren r.children).1)
          (Row.measureChildren r.children).2.2) } := by
  simp only [Row.adjustChildren]
  split
  · rfl
  · next hc => exact absurd hE hc

/-- Branch characterization of `Column._adjustChildren` when the excess is
non-negative. -/
theorem Column.adjust_excess_col (c : Column)
    (hE : 0 ≤ c.h - (Column.measureChildren c.children).1) :
    Column.adjustChildren c =
      { c with children := (Column.expandChildSprings c.children
          (c.h - (Column.measureChildren c.children).1)
          (Column.measureChildren c.children).2.2) } := by
  simp only [Column.adjustChildren]
  split
  · rfl
  · next hc => exact absurd hE hc

/-- Counterexample to C4 as stated: a 20-wide row around one non-spring child
whose current width is 3 but whose natural width is 5.  The excess is 15 ≥ 0,
yet after `_adjustChildren` the child's width is still 3, not its natural 5:
with non-negative excess the code never touches non-spring children. -/
theorem claim_C4_counterexample :
    0 ≤ demoRowStale.w - (Row.measureChildren demoRowStale.children).1 ∧
    (demoRowStale.children.map fun c => c.isSpring) = [false] ∧
    (demoRowStale.children.map fun c => c.wConfig.nat) = [5] ∧
    ((Row.adjustChildren demoRowStale).children.map fun c => c.w) = [3] ∧
    (3 : ℚ) ≠ 5 := by
  have hE : 0 ≤ demoRowStale.w - (Row.measureChildren demoRowStale.children).1 := by
    rw [Row.measureChildren_eq]
    norm_num [demoRowStale, demoStale, SizeConfig.fixed]
  refine ⟨hE, by simp [demoRowStale, demoStale], ?_, ?_, by norm_num⟩
  · simp [demoRowStale, demoStale, SizeConfig.fixed]
  · rw [Row.adjust_excess demoRowStale hE]
    have hn : (Row.measureChildren demoRowStale.children).2.2 = 0 := by
      rw [Row.measureChildren_eq]
      simp [demoRowStale, demoStale]
    simp [Row.expandChildSprings, hn, demoRowStale, demoStale]

/-- C4, amended: when `excess ≥ 0`, `_adjustChildren` leaves every non-spring
child entirely unchanged (position, size and configurations), including when
there are zero springs; a non-spring child's primary-axis size therefore
equals its natural size only if it already did before the call. -/
theorem claim_C4 :
    (∀ r : Row, 0 ≤ r.w - (Row.measureChildren r.children).1 →
      (Row.adjustChildren r).children.length = r.children.length ∧
      (∀ (i : Nat) (hi : i < r.children.length)
        (hi2 : i < (Row.adjustChildren r).children.length),
        (r.children.get ⟨i, hi⟩).isSpring = false →
        (Row.adjustChildren r).children.get ⟨i, hi2⟩ = r.children.get ⟨i, hi⟩)) ∧
    (∀ c : Column, 0 ≤ c.h - (Column.measureChildren c.children).1 →
      (Column.adjustChildren c).children.length = c.children.length ∧
      (∀ (i : Nat) (hi : i < c.children.length)
        (hi2 : i < (Column.adjustChildren c).children.length),
        (c.children.get ⟨i, hi⟩).isSpring = false →
        (Column.adjustChildren c).children.get ⟨i, hi2⟩ = c.children.get ⟨i, hi⟩)) := by
  constructor
  · intro r hE
    rw [Row.adjust_excess r hE]
    by_cases hn : (Row.measureChildren r.children).2.2 = 0
    · refine ⟨by simp [Row.expandChildSprings, hn], ?_⟩
      intro i hi hi2 hsp
      simp [Row.expandChildSprings, hn]
    · refine ⟨by simp [Row.expandChildSprings, hn], ?_⟩
      intro i hi hi2 hsp
      simp only [List.get_eq_getElem] at hsp ⊢
      simp [Row.expandChildSprings, hn, List.getElem_map, hsp]
  · intro c hE
    rw [Column.adjust_excess_col c hE]
    by_cases hn : (Column.measureChildren c.children).2.2 = 0
    · refine ⟨by simp [Column.expandChildSprings, hn], ?_⟩
      intro i hi hi2 hsp
      simp [Column.expandChildSprings, hn]
    · refine ⟨by simp [Column.expandChildSprings, hn], ?_⟩
      intro i hi hi2 hsp
      simp only [List.get_eq_getElem] at hsp ⊢
      simp [Column.expandChildSprings, hn, List.getElem_map, hsp]

/-- Witness for the amended C4 at `demoRowStale` / `demoColStale`: the stale
non-spring child is returned exactly as it was. -/
theorem claim_C4_witness :
    (0 ≤ demoRowStale.w - (Row.measureChildren demoRowStale.children).1 ∧
      (Row.adjustChildren demoRowStale).children = demoRowStale.children) ∧
    (0 ≤ demoColStale.h - (Column.measureChildren demoColStale.children).1 ∧
      (Column.adjustChildren demoColStale).children = demoColStale.children) := by
  have hE1 : 0 ≤ demoRowStale.w - (Row.measureChildren demoRowStale.children).1 := by
    rw [Row.measureChildren_eq]
    norm_num [demoRowStale, demoStale, SizeConfig.fixed]
  have hE2 : 0 ≤ demoColStale.h - (Column.measureChildren demoColStale.children).1 := by
    rw [Column.measureChildren_eq_col]
    norm_num [demoColStale, SizeConfig.fixed]
  have h1 := claim_C4.1 demoRowStale hE1
  have h2 := claim_C4.2 demoColStale hE2
  refine ⟨⟨hE1, ?_⟩, ⟨hE2, ?_⟩⟩
  · apply List.ext_getElem h1.1
    intro i hi hi2
    have hlen : demoRowStale.children.length = 1 := by simp [demoRowStale]
    have hi0 : i = 0 := by omega
    subst hi0
    have hsp : (demoRowStale.children.get ⟨0, by omega⟩).isSpring = false := by
      simp [demoRowStale, demoStale]
    have := h1.2 0 (by omega) (by omega) hsp
    simpa [List.get_eq_getElem] using this
  · apply List.ext_getElem h2.1
    intro i hi hi2
    have hlen : demoColStale.children.length = 1 := by simp [demoColStale]
    have hi0 : i = 0 := by omega
    subst hi0
    have hsp : (demoColStale.children.get ⟨0, by omega⟩).isSpring = false := by
      simp [demoColStale]
    have := h2.2 0 (by omega) (by omega) hsp
    simpa [List.get_eq_getElem] using this

/-! ### Sizing aggregation (claim C2) -/

/-- The sizing loop of `Row` accumulates componentwise sums along the width and
componentwise `max` folds along the height. -/
theorem Row.sizingLoop_eq (cs : List Child) :
    ∀ acc : SizingAcc,
      Row.sizingLoop cs acc =
        ⟨acc.minW + (cs.map fun c => c.wConfig.min).sum,
         acc.naturalW + (cs.map fun c => c.wConfig.nat).sum,
         acc.maxW + (cs.map fun c => c.wConfig.max).sum,
         (cs.map fun c => c.hConfig.min).foldr max acc.minH,
         (cs.map fun c => c.hConfig.nat).foldr max acc.naturalH,
         (cs.map fun c => c.hConfig.max).foldr max acc.maxH⟩ := by
  induction cs with
  | nil => intro acc; simp [Row.sizingLoop]
  | cons c t ih =>
    intro acc
    rw [Row.sizingLoop, ih]
    simp only [List.map_cons, List.sum_cons, List.foldr_cons]
    rw [max_comm acc.minH, foldr_max_init, max_comm acc.naturalH, foldr_max_init,
      max_comm acc.maxH, foldr_max_init]
    simp [add_assoc]

/-- The sizing loop of `Column` mirrored. -/
theorem Column.sizingLoop_eq_col (cs : List Child) :
    ∀ acc : SizingAcc,
      Column.sizingLoop cs acc =
        ⟨(cs.map fun c => c.wConfig.min).foldr max acc.minW,
         (cs.map fun c => c.wConfig.nat).foldr max acc.naturalW,
         (cs.map fun c => c.wConfig.max).foldr max acc.maxW,
         acc.minH + (cs.map fun c => c.hConfig.min).sum,
         acc.naturalH + (cs.map fun c => c.hConfig.nat).sum,
         acc.maxH + (cs.map fun c => c.hConfig.max).sum⟩ := by
  induction cs with
  | nil => intro acc; simp [Column.sizingLoop]
  | cons c t ih =>
    intro acc
    rw [Column.sizingLoop, ih]
    simp only [List.map_cons, List.sum_cons, List.foldr_cons]
    rw [max_comm acc.minW, foldr_max_init, max_comm acc.naturalW, foldr_max_init,
      max_comm acc.maxW, foldr_max_init]
    simp [add_assoc]

/-- Closed form of `Row._doLocalSizing`. -/
theorem Row.doLocalSizing_eq (r : Row) :
    Row.doLocalSizing r =
      { r with
        wConfig := ⟨(r.children.map fun c => c.wConfig.nat).sum,
                    (r.children.map fun c => c.wConfig.min).sum,
                    (r.children.map fun c => c.wConfig.max).sum⟩
        hConfig := ⟨(r.children.map fun c => c.hConfig.nat).foldr max 0,
                    (r.children.map fun c => c.hConfig.min).foldr max 0,
                    (r.children.map fun c => c.hConfig.max).foldr max 0⟩ } := by
  simp [Row.doLocalSizing, Row.sizingLoop_eq]

/-- Closed form of `Column._doLocalSizing`. -/
theorem Column.doLocalSizing_eq_col (c : Column) :
    Column.doLocalSizing c =
      { c with
        hConfig := ⟨(c.children.map fun x => x.hConfig.nat).sum,
                    (c.children.map fun x => x.hConfig.min).sum,
                    (c.children.map fun x => x.hConfig.max).sum⟩
        wConfig := ⟨(c.children.map fun x => x.wConfig.nat).foldr max 0,
                    (c.children.map fun x => x.wConfig.min).foldr max 0,
                    (c.children.map fun x => x.wConfig.max).foldr max 0⟩ } := by
  simp [Column.doLocalSizing, Column.sizingLoop_eq_col]

/-- C2: after `_doLocalSizing` the container's primary-axis SizeConfig is the
componentwise sum over all children (springs included) and its cross-axis
SizeConfig is the componentwise maximum over all children — an upper bound of
every child, attained by some child whenever the list is non-empty, with all
six components 0 when there are no children (for both `Row` and `Column`,
assuming the data-model non-negativity of the cross-axis components). -/
theorem claim_C2 :
    (∀ r : Row,
      (∀ c ∈ r.children,
        0 ≤ c.hConfig.nat ∧ 0 ≤ c.hConfig.min ∧ (0 : WithTop ℚ) ≤ c.hConfig.max) →
      (Row.doLocalSizing r).wConfig =
        ⟨(r.children.map fun c => c.wConfig.nat).sum,
         (r.children.map fun c => c.wConfig.min).sum,
         (r.children.map fun c => c.wConfig.max).sum⟩ ∧
      (Row.doLocalSizing r).hConfig =
        ⟨(r.children.map fun c => c.hConfig.nat).foldr max 0,
         (r.children.map fun c => c.hConfig.min).foldr max 0,
         (r.children.map fun c => c.hConfig.max).foldr max 0⟩ ∧
      (∀ c ∈ r.children,
        c.hConfig.nat ≤ (Row.doLocalSizing r).hConfig.nat ∧
        c.hConfig.min ≤ (Row.doLocalSizing r).hConfig.min ∧
        c.hConfig.max ≤ (Row.doLocalSizing r).hConfig.max) ∧
      (r.children ≠ [] →
        ((Row.doLocalSizing r).hConfig.nat ∈ r.children.map fun c => c.hConfig.nat) ∧
        ((Row.doLocalSizing r).hConfig.min ∈ r.children.map fun c => c.hConfig.min) ∧
        ((Row.doLocalSizing r).hConfig.max ∈ r.children.map fun c => c.hConfig.max)) ∧
      (r.children = [] →
        (Row.doLocalSizing r).wConfig = ⟨0, 0, 0⟩ ∧
        (Row.doLocalSizing r).hConfig = ⟨0, 0, 0⟩)) ∧
    (∀ co : Column,
      (∀ c ∈ co.children,
        0 ≤ c.wConfig.nat ∧ 0 ≤ c.wConfig.min ∧ (0 : WithTop ℚ) ≤ c.wConfig.max) →
      (Column.doLocalSizing co).hConfig =
        ⟨(co.children.map fun c => c.hConfig.nat).sum,
         (co.children.map fun c => c.hConfig.min).sum,
         (co.children.map fun c => c.hConfig.max).sum⟩ ∧
      (Column.doLocalSizing co).wConfig =
        ⟨(co.children.map fun c => c.wConfig.nat).foldr max 0,
         (co.children.map fun c => c.wConfig.min).foldr max 0,
         (co.children.map fun c => c.wConfig.max).foldr max 0⟩ ∧
      (∀ c ∈ co.children,
        c.wConfig.nat ≤ (Column.doLocalSizing co).wConfig.nat ∧
        c.wConfig.min ≤ (Column.doLocalSizing co).wConfig.min ∧
        c.wConfig.max ≤ (Column.doLocalSizing co).wConfig.max) ∧
      (co.children ≠ [] →
        ((Column.doLocalSizing co).wConfig.nat ∈ co.children.map fun c => c.wConfig.nat) ∧
        ((Column.doLocalSizing co).wConfig.min ∈ co.children.map fun c => c.wConfig.min) ∧
        ((Column.doLocalSizing co).wConfig.max ∈ co.children.map fun c => c.wConfig.max)) ∧
      (co.children = [] →
        (Column.doLocalSizing co).hConfig = ⟨0, 0, 0⟩ ∧
        (Column.doLocalSizing co).wConfig = ⟨0, 0, 0⟩)) := by
  constructor
  · intro r hwf
    rw [Row.doLocalSizing_eq]
    refine ⟨rfl, rfl, ?_, ?_, ?_⟩
    · intro c hc
      exact ⟨le_foldr_max_of_mem 0 (List.mem_map_of_mem _ hc),
        le_foldr_max_of_mem 0 (List.mem_map_of_mem _ hc),
        le_foldr_max_of_mem 0 (List.mem_map_of_mem _ hc)⟩
    · intro hne
      have hne1 : (r.children.map fun c => c.hConfig.nat) ≠ [] := by
        simpa using hne
      have hne2 : (r.children.map fun c => c.hConfig.min) ≠ [] := by
        simpa using hne
      have hne3 : (r.children.map fun c => c.hConfig.max) ≠ [] := by
        simpa using hne
      refine ⟨foldr_max_mem 0 _ hne1 ?_, foldr_max_mem 0 _ hne2 ?_, foldr_max_mem 0 _ hne3 ?_⟩
      · intro x hx
        obtain ⟨c, hc, rfl⟩ := List.mem_map.mp hx
        exact (hwf c hc).1
      · intro x hx
        obtain ⟨c, hc, rfl⟩ := List.mem_map.mp hx
        exact (hwf c hc).2.1
      · intro x hx
        obtain ⟨c, hc, rfl⟩ := List.mem_map.mp hx
        exact (hwf c hc).2.2
    · intro hemp
      simp [hemp]
  · intro co hwf
    rw [Column.doLocalSizing_eq_col]
    refine ⟨rfl, rfl, ?_, ?_, ?_⟩
    · intro c hc
      exact ⟨le_foldr_max_of_mem 0 (List.mem_map_of_mem _ hc),
        le_foldr_max_of_mem 0 (List.mem_map_of_mem _ hc),
        le_foldr_max_of_mem 0 (List.mem_map_of_mem _ hc)⟩
    · intro hne
      have hne1 : (co.children.map fun c => c.wConfig.nat) ≠ [] := by
        simpa using hne
      have hne2 : (co.children.map fun c => c.wConfig.min) ≠ [] := by
        simpa using hne
      have hne3 : (co.children.map fun c => c.wConfig.max) ≠ [] := by
        simpa using hne
      refine ⟨foldr_max_mem 0 _ hne1 ?_, foldr_max_mem 0 _ hne2 ?_, foldr_max_mem 0 _ hne3 ?_⟩
      · intro x hx
        obtain ⟨c, hc, rfl⟩ := List.mem_map.mp hx
        exact (hwf c hc).1
      · intro x hx
        obtain ⟨c, hc, rfl⟩ := List.mem_map.mp hx
        exact (hwf c hc).2.1
      · intro x hx
        obtain ⟨c, hc, rfl⟩ := List.mem_map.mp hx
        exact (hwf c hc).2.2
    · intro hemp
      simp [hemp]

/-- Witness for C2 at the two-child demo row and its transposed column. -/
theorem claim_C2_witness :
    ((∀ c ∈ demoRow10.children,
        0 ≤ c.hConfig.nat ∧ 0 ≤ c.hConfig.min ∧ (0 : WithTop ℚ) ≤ c.hConfig.max) ∧
      (Row.doLocalSizing demoRow10).wConfig.nat = 16 ∧
      (Row.doLocalSizing demoRow10).wConfig.min = 6 ∧
      (Row.doLocalSizing demoRow10).hConfig.nat = 3) ∧
    ((∀ c ∈ demoCol10.children,
        0 ≤ c.wConfig.nat ∧ 0 ≤ c.wConfig.min ∧ (0 : WithTop ℚ) ≤ c.wConfig.max) ∧
      (Column.doLocalSizing demoCol10).hConfig.nat = 16 ∧
      (Column.doLocalSizing demoCol10).wConfig.nat = 3) := by
  have hwf1 : ∀ c ∈ demoRow10.children,
      0 ≤ c.hConfig.nat ∧ 0 ≤ c.hConfig.min ∧ (0 : WithTop ℚ) ≤ c.hConfig.max := by
    intro c hc
    simp only [demoRow10, List.mem_cons, List.not_mem_nil, or_false] at hc
    rcases hc with rfl | rfl
    · refine ⟨by norm_num [demoKidA], by norm_num [demoKidA], ?_⟩
      simp [demoKidA]
    · refine ⟨by norm_num [demoKidB], by norm_num [demoKidB], ?_⟩
      simp [demoKidB]
  have hwf2 : ∀ c ∈ demoCol10.children,
      0 ≤ c.wConfig.nat ∧ 0 ≤ c.wConfig.min ∧ (0 : WithTop ℚ) ≤ c.wConfig.max := by
    intro c hc
    simp only [demoCol10, List.mem_cons, List.not_mem_nil, or_false] at hc
    rcases hc with rfl | rfl
    · refine ⟨by norm_num [demoKidAT], by norm_num [demoKidAT], ?_⟩
      simp [demoKidAT]
    · refine ⟨by norm_num [demoKidBT], by norm_num [demoKidBT], ?_⟩
      simp [demoKidBT]
  have h1 := claim_C2.1 demoRow10 hwf1
  have h2 := claim_C2.2 demoCol10 hwf2
  refine ⟨⟨hwf1, ?_, ?_, ?_⟩, ⟨hwf2, ?_, ?_⟩⟩
  · rw [h1.1]
    norm_num [demoRow10, demoKidA, demoKidB]
  · rw [h1.1]
    norm_num [demoRow10, demoKidA, demoKidB]
  · rw [h1.2.1]
    norm_num [demoRow10, demoKidA, demoKidB]
  · rw [h2.1]
    norm_num [demoCol10, demoKidAT, demoKidBT]
  · rw [h2.2.1]
    norm_num [demoCol10, demoKidAT, demoKidBT]

/-! ### Layout normal form -/

/-- Branch characterization of `Row._adjustChildren` on a shortfall with
positive available compression. -/
theorem Row.adjust_shortfall_compr (r : Row)
    (hE : r.w - (Row.measureChildren r.children).1 < 0)
    (hA : (Row.measureChildren r.children).2.1 ≠ 0) :
    Row.adjustChildren r =
      { r with children := (Row.compressChildren
          (r.children.map fun child =>
            if child.isSpring then { child with w := 0 } else child)
          (min (Row.measureChildren r.children).2.1
            (-(r.w - (Row.measureChildren r.children).1)))
          (Row.measureChildren r.children).2.1) } := by
  simp only [Row.adjustChildren]
  split
  · next hc => exact absurd hc (not_le.mpr hE)
  · simp [hA]

/-- Branch characterization of `Column._adjustChildren` on a shortfall with
positive available compression. -/
theorem Column.adjust_shortfall_compr_col (c : Column)
    (hE : c.h - (Column.measureChildren c.children).1 < 0)
    (hA : (Column.measureChildren c.children).2.1 ≠ 0) :
    Column.adjustChildren c =
      { c with children := (Column.compressChildren
          (c.children.map fun child =>
            if child.isSpring then { child with h := 0 } else child)
          (min (Column.measureChildren c.children).2.1
            (-(c.h - (Column.measureChildren c.children).1)))
          (Column.measureChildren c.children).2.1) } := by
  simp only [Column.adjustChildren]
  split
  · next hc => exact absurd hc (not_le.mpr hE)
  · simp [hA]

/-- Method `Row._adjustChildren` is the per-child map assigning `Row.finalW`. -/
theorem Row.adjustChildren_eq (r : Row) :
    Row.adjustChildren r =
      { r with children := r.children.map fun c =>
          { c with w := (Row.finalW (r.w - (Row.measureChildren r.children).1)
              (Row.measureChildren r.children).2.2
              (Row.measureChildren r.children).2.1 c) } } := by
  by_cases hE : 0 ≤ r.w - (Row.measureChildren r.children).1
  · rw [Row.adjust_excess r hE]
    congr 1
    by_cases hn : (Row.measureChildren r.children).2.2 = 0
    · rw [Row.expandChildSprings, if_pos hn]
      symm
      apply map_eq_self
      intro c hc
      simp [Row.finalW, hE, hn]
    · rw [Row.expandChildSprings, if_neg hn]
      apply List.map_congr_left
      intro c hc
      by_cases hs : c.isSpring
      · simp [Row.finalW, hE, hs, hn]
      · rw [Bool.not_eq_true] at hs
        simp [Row.finalW, hE, hs]
        rw [← hs]
  · have hE' : r.w - (Row.measureChildren r.children).1 < 0 := lt_of_not_le hE
    by_cases hA : (Row.measureChildren r.children).2.1 = 0
    · rw [Row.adjust_shortfall_noCompr r hE' hA]
      congr 1
      apply List.map_congr_left
      intro c hc
      by_cases hs : c.isSpring
      · simp [Row.finalW, hE, hs]
      · rw [Bool.not_eq_true] at hs
        simp [Row.finalW, hE, hs, hA]
        rw [← hs]
    · rw [Row.adjust_shortfall_compr r hE' hA]
      congr 1
      rw [Row.compressChildren, List.map_map]
      apply List.map_congr_left
      intro c hc
      by_cases hs : c.isSpring
      · simp [Row.finalW, hE, hs, Function.comp]
      · simp [Row.finalW, hE, hs, hA, Function.comp]

/-- Method `Column._adjustChildren` is the per-child map assigning `Column.finalH`. -/
theorem Column.adjustChildren_eq_col (co : Column) :
    Column.adjustChildren co =
      { co with children := co.children.map fun c =>
          { c with h := (Column.finalH (co.h - (Column.measureChildren co.children).1)
              (Column.measureChildren co.children).2.2
              (Column.measureChildren co.children).2.1 c) } } := by
  by_cases hE : 0 ≤ co.h - (Column.measureChildren co.children).1
  · rw [Column.adjust_excess_col co hE]
    congr 1
    by_cases hn : (Column.measureChildren co.children).2.2 = 0
    · rw [Column.expandChildSprings, if_pos hn]
      symm
      apply map_eq_self
      intro c hc
      simp [Column.finalH, hE, hn]
    · rw [Column.expandChildSprings, if_neg hn]
      apply List.map_congr_left
      intro c hc
      by_cases hs : c.isSpring
      · simp [Column.finalH, hE, hs, hn]
      · rw [Bool.not_eq_true] at hs
        simp [Column.finalH, hE, hs]
        rw [← hs]
  · have hE' : co.h - (Column.measureChildren co.children).1 < 0 := lt_of_not_le hE
    by_cases hA : (Column.measureChildren co.children).2.1 = 0
    · rw [Column.adjust_shortfall_noCompr_col co hE' hA]
      congr 1
      apply List.map_congr_left
      intro c hc
      by_cases hs : c.isSpring
      · simp [Column.finalH, hE, hs]
      · rw [Bool.not_eq_true] at hs
        simp [Column.finalH, hE, hs, hA]
        rw [← hs]
    · rw [Column.adjust_shortfall_compr_col co hE' hA]
      congr 1
      rw [Column.compressChildren, List.map_map]
      apply List.map_congr_left
      intro c hc
      by_cases hs : c.isSpring
      · simp [Column.finalH, hE, hs, Function.comp]
      · simp [Column.finalH, hE, hs, hA, Function.comp]

/-- Closed form of the first placement loop of `Row`. -/
theorem Row.setHeights_eq (cs : List Child) :
    ∀ h0 : ℚ,
      Row.setHeights cs h0 =
        (cs.map fun c => { c with h := c.hConfig.nat },
         (cs.map fun c => c.hConfig.nat).foldr max h0) := by
  induction cs with
  | nil => intro h0; simp [Row.setHeights]
  | cons c t ih =>
    intro h0
    simp only [Row.setHeights, ih, List.map_cons, List.foldr_cons, ite_gt_eq_max]
    rw [max_comm h0, foldr_max_init]

/-- Closed form of the first placement loop of `Column`. -/
theorem Column.setWidths_eq (cs : List Child) :
    ∀ w0 : ℚ,
      Column.setWidths cs w0 =
        (cs.map fun c => { c with w := c.wConfig.nat },
         (cs.map fun c => c.wConfig.nat).foldr max w0) := by
  induction cs with
  | nil => intro w0; simp [Column.setWidths]
  | cons c t ih =>
    intro w0
    simp only [Column.setWidths, ih, List.map_cons, List.foldr_cons, ite_gt_eq_max]
    rw [max_comm w0, foldr_max_init]

/-- Stacking a list of already width- and height-assigned children is the
layout normal form `Row.layoutKids`. -/
theorem Row.place_map_eq (g : Child → Child) (wF : Child → ℚ) (selfH : ℚ) (j : String)
    (hg : ∀ c, g c = { c with w := wF c, h := c.hConfig.nat }) :
    ∀ (cs : List Child) (x0 : ℚ),
      Row.placeChildren (cs.map g) x0 selfH j = Row.layoutKids wF selfH j cs x0 := by
  intro cs
  induction cs with
  | nil => intro x0; rfl
  | cons c t ih =>
    intro x0
    simp only [List.map_cons, Row.placeChildren, Row.layoutKids, hg c, List.cons.injEq]
    exact ⟨rfl, ih (x0 + wF c)⟩

/-- Stacking a list of already assigned children is the layout normal form
`Column.layoutKids`. -/
theorem Column.place_map_eq_col (g : Child → Child) (hF : Child → ℚ) (selfW : ℚ) (j : String)
    (hg : ∀ c, g c = { c with h := hF c, w := c.wConfig.nat }) :
    ∀ (cs : List Child) (y0 : ℚ),
      Column.placeChildren (cs.map g) y0 selfW j = Column.layoutKids hF selfW j cs y0 := by
  intro cs
  induction cs with
  | nil => intro y0; rfl
  | cons c t ih =>
    intro y0
    simp only [List.map_cons, Column.placeChildren, Column.layoutKids, hg c, List.cons.injEq]
    exact ⟨rfl, ih (y0 + hF c)⟩

/-- Normal form of `Row._completeLocalLayout` on a non-empty child list: the
children end up in `Row.layoutKids` form, the container's height and the `nat`
field of its (otherwise unchanged) height configuration become the running
maximum of the children's natural heights. -/
theorem Row.completeLocalLayout_eq (r : Row) (hne : r.children ≠ []) :
    Row.completeLocalLayout r =
      { r with
        h := Row.hMaxOf r.children
        hConfig := { r.hConfig with nat := Row.hMaxOf r.children }
        children := (Row.layoutKids
          (Row.finalW (r.w - (Row.measureChildren r.children).1)
            (Row.measureChildren r.children).2.2
            (Row.measureChildren r.children).2.1)
          (Row.hMaxOf r.children) r.hJustification r.children 0) } := by
  have hlen : ¬ r.children.length = 0 := by
    simpa [List.length_eq_zero] using hne
  rw [Row.completeLocalLayout, if_neg hlen, Row.adjustChildren_eq]
  simp only [Row.setHeights_eq, List.map_map, Function.comp_def]
  rw [Row.place_map_eq _ _ _ _ (fun c => rfl)]
  rfl

/-- Normal form of `Column._completeLocalLayout` on a non-empty child list. -/
theorem Column.completeLocalLayout_eq_col (co : Column) (hne : co.children ≠ []) :
    Column.completeLocalLayout co =
      { co with
        w := Column.wMaxOf co.children
        wConfig := { co.wConfig with nat := Column.wMaxOf co.children }
        children := (Column.layoutKids
          (Column.finalH (co.h - (Column.measureChildren co.children).1)
            (Column.measureChildren co.children).2.2
            (Column.measureChildren co.children).2.1)
          (Column.wMaxOf co.children) co.wJustification co.children 0) } := by
  have hlen : ¬ co.children.length = 0 := by
    simpa [List.length_eq_zero] using hne
  rw [Column.completeLocalLayout, if_neg hlen, Column.adjustChildren_eq_col]
  simp only [Column.setWidths_eq, List.map_map, Function.comp_def]
  rw [Column.place_map_eq_col _ _ _ _ (fun c => rfl)]
  rfl

/-- Length preservation of the `Row` layout normal form. -/
theorem Row.layoutKids_length (wF : Child → ℚ) (selfH : ℚ) (j : String) :
    ∀ (cs : List Child) (x0 : ℚ),
      (Row.layoutKids wF selfH j cs x0).length = cs.length := by
  intro cs
  induction cs with
  | nil => intro x0; rfl
  | cons c t ih => intro x0; simp [Row.layoutKids, ih]

/-- Length preservation of the `Column` layout normal form. -/
theorem Column.layoutKids_length_col (hF : Child → ℚ) (selfW : ℚ) (j : String) :
    ∀ (cs : List Child) (y0 : ℚ),
      (Column.layoutKids hF selfW j cs y0).length = cs.length := by
  intro cs
  induction cs with
  | nil => intro y0; rfl
  | cons c t ih => intro y0; simp [Column.layoutKids, ih]

/-- Pointwise description of the `Row` layout normal form: sizes from `wF` and
the natural heights, positions packed from the running offset, y from the
justification. -/
theorem Row.layoutKids_getElem (wF : Child → ℚ) (selfH : ℚ) (j : String) :
    ∀ (cs : List Child) (x0 : ℚ) (i : Nat) (hi : i < cs.length)
      (hi2 : i < (Row.layoutKids wF selfH j cs x0).length),
      (Row.layoutKids wF selfH j cs x0)[i] =
        { cs[i] with
          w := wF cs[i]
          h := cs[i].hConfig.nat
          x := x0 + ((cs.take i).map wF).sum
          y := Row.yJust selfH j cs[i].hConfig.nat } := by
  intro cs
  induction cs with
  | nil => intro x0 i hi hi2; simp at hi
  | cons c t ih =>
    intro x0 i hi hi2
    cases i with
    | zero => simp [Row.layoutKids]
    | succ n =>
      have hn : n < t.length := by simpa using hi
      have hn2 : n < (Row.layoutKids wF selfH j t (x0 + wF c)).length := by
        rw [Row.layoutKids_length]
        exact hn
      simp only [Row.layoutKids, List.getElem_cons_succ]
      rw [ih (x0 + wF c) n hn hn2]
      simp [List.take_succ_cons, add_assoc]

/-- Pointwise description of the `Column` layout normal form. -/
theorem Column.layoutKids_getElem_col (hF : Child → ℚ) (selfW : ℚ) (j : String) :
    ∀ (cs : List Child) (y0 : ℚ) (i : Nat) (hi : i < cs.length)
      (hi2 : i < (Column.layoutKids hF selfW j cs y0).length),
      (Column.layoutKids hF selfW j cs y0)[i] =
        { cs[i] with
          h := hF cs[i]
          w := cs[i].wConfig.nat
          y := y0 + ((cs.take i).map hF).sum
          x := Column.xJust selfW j cs[i].wConfig.nat } := by
  intro cs
  induction cs with
  | nil => intro y0 i hi hi2; simp at hi
  | cons c t ih =>
    intro y0 i hi hi2
    cases i with
    | zero => simp [Column.layoutKids]
    | succ n =>
      have hn : n < t.length := by simpa using hi
      have hn2 : n < (Column.layoutKids hF selfW j t (y0 + hF c)).length := by
        rw [Column.layoutKids_length_col]
        exact hn
      simp only [Column.layoutKids, List.getElem_cons_succ]
      rw [ih (y0 + hF c) n hn hn2]
      simp [List.take_succ_cons, add_assoc]

/-- The cross-axis sizes in the `Row` layout normal form are the natural
heights. -/
theorem Row.layoutKids_map_h (wF : Child → ℚ) (selfH : ℚ) (j : String) :
    ∀ (cs : List Child) (x0 : ℚ),
      (Row.layoutKids wF selfH j cs x0).map (fun c => c.h)
        = cs.map fun c => c.hConfig.nat := by
  intro cs
  induction cs with
  | nil => intro x0; rfl
  | cons c t ih => intro x0; simp [Row.layoutKids, ih]

/-- The cross-axis sizes in the `Column` layout normal form are the natural
widths. -/
theorem Column.layoutKids_map_w (hF : Child → ℚ) (selfW : ℚ) (j : String) :
    ∀ (cs : List Child) (y0 : ℚ),
      (Column.layoutKids hF selfW j cs y0).map (fun c => c.w)
        = cs.map fun c => c.wConfig.nat := by
  intro cs
  induction cs with
  | nil => intro y0; rfl
  | cons c t ih => intro y0; simp [Column.layoutKids, ih]

/-- C5: after `_completeLocalLayout` on a non-empty child list the children
are packed contiguously in list order from position 0 along the primary axis,
and each child's cross-axis position follows the justification: 0 for
`top`/`left`, centred for `center`, flush for `bottom`/`right`, 0 for any
unrecognized value (for both `Row` and `Column`). -/
theorem claim_C5 :
    (∀ r : Row, r.children ≠ [] →
      (Row.completeLocalLayout r).children.length = r.children.length ∧
      (∀ h0 : 0 < (Row.completeLocalLayout r).children.length,
        ((Row.completeLocalLayout r).children.get ⟨0, h0⟩).x = 0) ∧
      (∀ (i : Nat) (hi : i + 1 < (Row.completeLocalLayout r).children.length),
        ((Row.completeLocalLayout r).children.get ⟨i + 1, hi⟩).x =
          ((Row.completeLocalLayout r).children.get ⟨i, Nat.lt_of_succ_lt hi⟩).x +
          ((Row.completeLocalLayout r).children.get ⟨i, Nat.lt_of_succ_lt hi⟩).w) ∧
      (∀ (i : Nat) (hi : i < (Row.completeLocalLayout r).children.length),
        (r.hJustification = "top" →
          ((Row.completeLocalLayout r).children.get ⟨i, hi⟩).y = 0) ∧
        (r.hJustification = "center" →
          ((Row.completeLocalLayout r).children.get ⟨i, hi⟩).y =
            ((Row.completeLocalLayout r).h -
              ((Row.completeLocalLayout r).children.get ⟨i, hi⟩).h) / 2) ∧
        (r.hJustification = "bottom" →
          ((Row.completeLocalLayout r).children.get ⟨i, hi⟩).y =
            (Row.completeLocalLayout r).h -
              ((Row.completeLocalLayout r).children.get ⟨i, hi⟩).h) ∧
        (r.hJustification ≠ "top" → r.hJustification ≠ "center" →
          r.hJustification ≠ "bottom" →
          ((Row.completeLocalLayout r).children.get ⟨i, hi⟩).y = 0))) ∧
    (∀ co : Column, co.children ≠ [] →
      (Column.completeLocalLayout co).children.length = co.children.length ∧
      (∀ h0 : 0 < (Column.completeLocalLayout co).children.length,
        ((Column.completeLocalLayout co).children.get ⟨0, h0⟩).y = 0) ∧
      (∀ (i : Nat) (hi : i + 1 < (Column.completeLocalLayout co).children.length),
        ((Column.completeLocalLayout co).children.get ⟨i + 1, hi⟩).y =
          ((Column.completeLocalLayout co).children.get ⟨i, Nat.lt_of_succ_lt hi⟩).y +
          ((Column.completeLocalLayout co).children.get ⟨i, Nat.lt_of_succ_lt hi⟩).h) ∧
      (∀ (i : Nat) (hi : i < (Column.completeLocalLayout co).children.length),
        (co.wJustification = "left" →
          ((Column.completeLocalLayout co).children.get ⟨i, hi⟩).x = 0) ∧
        (co.wJustification = "center" →
          ((Column.completeLocalLayout co).children.get ⟨i, hi⟩).x =
            ((Column.completeLocalLayout co).w -
              ((Column.completeLocalLayout co).children.get ⟨i, hi⟩).w) / 2) ∧
        (co.wJustification = "right" →
          ((Column.completeLocalLayout co).children.get ⟨i, hi⟩).x =
            (Column.completeLocalLayout co).w -
              ((Column.completeLocalLayout co).children.get ⟨i, hi⟩).w) ∧
        (co.wJustification ≠ "left" → co.wJustification ≠ "center" →
          co.wJustification ≠ "right" →
          ((Column.completeLocalLayout co).children.get ⟨i, hi⟩).x = 0))) := by
  constructor
  · intro r hne
    rw [Row.completeLocalLayout_eq r hne]
    refine ⟨by simp [Row.layoutKids_length], ?_, ?_, ?_⟩
    · intro h0
      have hi : 0 < r.children.length := by
        simpa [Row.layoutKids_length] using h0
      simp only [List.get_eq_getElem]
      rw [Row.layoutKids_getElem _ _ _ _ _ 0 hi (by simpa using h0)]
      simp
    · intro i hi
      have hi' : i + 1 < r.children.length := by
        simpa [Row.layoutKids_length] using hi
      simp only [List.get_eq_getElem]
      rw [Row.layoutKids_getElem _ _ _ _ _ (i + 1) hi' (by simpa using hi),
        Row.layoutKids_getElem _ _ _ _ _ i (Nat.lt_of_succ_lt hi')
          (by simpa using Nat.lt_of_succ_lt hi)]
      simp only []
      rw [sum_take_map_succ _ r.children i (Nat.lt_of_succ_lt hi')]
      simp [List.get_eq_getElem]
    · intro i hi
      have hi' : i < r.children.length := by
        simpa [Row.layoutKids_length] using hi
      simp only [List.get_eq_getElem]
      rw [Row.layoutKids_getElem _ _ _ _ _ i hi' (by simpa using hi)]
      refine ⟨?_, ?_, ?_, ?_⟩
      · intro hj
        simp [Row.yJust, hj]
      · intro hj
        simp [Row.yJust, hj]
        ring
      · intro hj
        simp [Row.yJust, hj]
      · intro hj1 hj2 hj3
        simp [Row.yJust, hj1, hj2, hj3]
  · intro co hne
    rw [Column.completeLocalLayout_eq_col co hne]
    refine ⟨by simp [Column.layoutKids_length_col], ?_, ?_, ?_⟩
    · intro h0
      have hi : 0 < co.children.length := by
        simpa [Column.layoutKids_length_col] using h0
      simp only [List.get_eq_getElem]
      rw [Column.layoutKids_getElem_col _ _ _ _ _ 0 hi (by simpa using h0)]
      simp
    · intro i hi
      have hi' : i + 1 < co.children.length := by
        simpa [Column.layoutKids_length_col] using hi
      simp only [List.get_eq_getElem]
      rw [Column.layoutKids_getElem_col _ _ _ _ _ (i + 1) hi' (by simpa using hi),
        Column.layoutKids_getElem_col _ _ _ _ _ i (Nat.lt_of_succ_lt hi')
          (by simpa using Nat.lt_of_succ_lt hi)]
      simp only []
      rw [sum_take_map_succ _ co.children i (Nat.lt_of_succ_lt hi')]
      simp [List.get_eq_getElem]
    · intro i hi
      have hi' : i < co.children.length := by
        simpa [Column.layoutKids_length_col] using hi
      simp only [List.get_eq_getElem]
      rw [Column.layoutKids_getElem_col _ _ _ _ _ i hi' (by simpa using hi)]
      refine ⟨?_, ?_, ?_, ?_⟩
      · intro hj
        simp [Column.xJust, hj]
      · intro hj
        simp [Column.xJust, hj]
        ring
      · intro hj
        simp [Column.xJust, hj]
      · intro hj1 hj2 hj3
        simp [Column.xJust, hj1, hj2, hj3]

/-- Witness for C5 at the strut/spring/strut demo containers. -/
theorem claim_C5_witness :
    (demoRow100.children ≠ [] ∧
      (Row.completeLocalLayout demoRow100).children.length
        = demoRow100.children.length ∧
      ((Row.completeLocalLayout demoRow100).children.get
        ⟨0, by rw [Row.completeLocalLayout_eq demoRow100 (by simp [demoRow100])]; simp [Row.layoutKids_length, demoRow100]⟩).x = 0) ∧
    (demoCol100.children ≠ [] ∧
      (Column.completeLocalLayout demoCol100).children.length
        = demoCol100.children.length ∧
      ((Column.completeLocalLayout demoCol100).children.get
        ⟨0, by rw [Column.completeLocalLayout_eq_col demoCol100 (by simp [demoCol100])]; simp [Column.layoutKids_length_col, demoCol100]⟩).y = 0) := by
  have hne1 : demoRow100.children ≠ [] := by simp [demoRow100]
  have hne2 : demoCol100.children ≠ [] := by simp [demoCol100]
  have h1 := claim_C5.1 demoRow100 hne1
  have h2 := claim_C5.2 demoCol100 hne2
  exact ⟨⟨hne1, h1.1, h1.2.1 _⟩, ⟨hne2, h2.1, h2.2.1 _⟩⟩

/-- C6: after `_completeLocalLayout` every child's cross-axis size equals its
own cross-axis natural size (the configurations themselves are untouched), and
the container's cross-axis size is the maximum of those natural sizes: an
upper bound of every child's cross size, attained by some child (for both
`Row` and `Column`, under the data-model non-negativity of natural sizes). -/
theorem claim_C6 :
    (∀ r : Row, r.children ≠ [] → (∀ c ∈ r.children, 0 ≤ c.hConfig.nat) →
      (Row.completeLocalLayout r).children.length = r.children.length ∧
      (∀ (i : Nat) (hi : i < r.children.length)
        (hi2 : i < (Row.completeLocalLayout r).children.length),
        ((Row.completeLocalLayout r).children.get ⟨i, hi2⟩).h =
          (r.children.get ⟨i, hi⟩).hConfig.nat ∧
        ((Row.completeLocalLayout r).children.get ⟨i, hi2⟩).hConfig =
          (r.children.get ⟨i, hi⟩).hConfig) ∧
      (∀ c' ∈ (Row.completeLocalLayout r).children,
        c'.h ≤ (Row.completeLocalLayout r).h) ∧
      ((Row.completeLocalLayout r).h ∈
        (Row.completeLocalLayout r).children.map fun c' => c'.h)) ∧
    (∀ co : Column, co.children ≠ [] → (∀ c ∈ co.children, 0 ≤ c.wConfig.nat) →
      (Column.completeLocalLayout co).children.length = co.children.length ∧
      (∀ (i : Nat) (hi : i < co.children.length)
        (hi2 : i < (Column.completeLocalLayout co).children.length),
        ((Column.completeLocalLayout co).children.get ⟨i, hi2⟩).w =
          (co.children.get ⟨i, hi⟩).wConfig.nat ∧
        ((Column.completeLocalLayout co).children.get ⟨i, hi2⟩).wConfig =
          (co.children.get ⟨i, hi⟩).wConfig) ∧
      (∀ c' ∈ (Column.completeLocalLayout co).children,
        c'.w ≤ (Column.completeLocalLayout co).w) ∧
      ((Column.completeLocalLayout co).w ∈
        (Column.completeLocalLayout co).children.map fun c' => c'.w)) := by
  constructor
  · intro r hne hwf
    rw [Row.completeLocalLayout_eq r hne]
    refine ⟨by simp [Row.layoutKids_length], ?_, ?_, ?_⟩
    · intro i hi hi2
      simp only [List.get_eq_getElem]
      rw [Row.layoutKids_getElem _ _ _ _ _ i hi (by simpa using hi2)]
      exact ⟨rfl, rfl⟩
    · intro c' hc'
      have hm : c'.h ∈ (r.children.map fun c => c.hConfig.nat) := by
        rw [← Row.layoutKids_map_h (Row.finalW (r.w - (Row.measureChildren r.children).1)
          (Row.measureChildren r.children).2.2 (Row.measureChildren r.children).2.1)
          (Row.hMaxOf r.children) r.hJustification r.children 0]
        exact List.mem_map_of_mem _ hc'
      exact le_foldr_max_of_mem 0 hm
    · have hmem : Row.hMaxOf r.children ∈ (r.children.map fun c => c.hConfig.nat) := by
        apply foldr_max_mem
        · simpa using hne
        · intro x hx
          obtain ⟨c, hc, rfl⟩ := List.mem_map.mp hx
          exact hwf c hc
      rw [Row.layoutKids_map_h]
      exact hmem
  · intro co hne hwf
    rw [Column.completeLocalLayout_eq_col co hne]
    refine ⟨by simp [Column.layoutKids_length_col], ?_, ?_, ?_⟩
    · intro i hi hi2
      simp only [List.get_eq_getElem]
      rw [Column.layoutKids_getElem_col _ _ _ _ _ i hi (by simpa using hi2)]
      exact ⟨rfl, rfl⟩
    · intro c' hc'
      have hm : c'.w ∈ (co.children.map fun c => c.wConfig.nat) := by
        rw [← Column.layoutKids_map_w (Column.finalH (co.h - (Column.measureChildren co.children).1)
          (Column.measureChildren co.children).2.2 (Column.measureChildren co.children).2.1)
          (Column.wMaxOf co.children) co.wJustification co.children 0]
        exact List.mem_map_of_mem _ hc'
      exact le_foldr_max_of_mem 0 hm
    · have hmem : Column.wMaxOf co.children ∈ (co.children.map fun c => c.wConfig.nat) := by
        apply foldr_max_mem
        · simpa using hne
        · intro x hx
          obtain ⟨c, hc, rfl⟩ := List.mem_map.mp hx
          exact hwf c hc
      rw [Column.layoutKids_map_w]
      exact hmem

/-- Witness for C6 at the strut/spring/strut demo containers. -/
theorem claim_C6_witness :
    (demoRow100.children ≠ [] ∧ (∀ c ∈ demoRow100.children, 0 ≤ c.hConfig.nat) ∧
      (Row.completeLocalLayout demoRow100).children.length
        = demoRow100.children.length ∧
      ((Row.completeLocalLayout demoRow100).h ∈
        (Row.completeLocalLayout demoRow100).children.map fun c' => c'.h)) ∧
    (demoCol100.children ≠ [] ∧ (∀ c ∈ demoCol100.children, 0 ≤ c.wConfig.nat) ∧
      (Column.completeLocalLayout demoCol100).children.length
        = demoCol100.children.length ∧
      ((Column.completeLocalLayout demoCol100).w ∈
        (Column.completeLocalLayout demoCol100).children.map fun c' => c'.w)) := by
  have hne1 : demoRow100.children ≠ [] := by simp [demoRow100]
  have hne2 : demoCol100.children ≠ [] := by simp [demoCol100]
  have hwf1 : ∀ c ∈ demoRow100.children, 0 ≤ c.hConfig.nat := by
    norm_num [List.forall_mem_cons, demoRow100, demoStrut, demoSpring,
      SizeConfig.fixed, SizeConfig.elastic]
  have hwf2 : ∀ c ∈ demoCol100.children, 0 ≤ c.wConfig.nat := by
    norm_num [List.forall_mem_cons, demoCol100, demoStrutT, demoSpring,
      SizeConfig.fixed, SizeConfig.elastic]
  have h1 := claim_C6.1 demoRow100 hne1 hwf1
  have h2 := claim_C6.2 demoCol100 hne2 hwf2
  exact ⟨⟨hne1, hwf1, h1.1, h1.2.2.2⟩, ⟨hne2, hwf2, h2.1, h2.2.2.2⟩⟩

/-- C10 (implicit): after `_completeLocalLayout` on a non-empty child list,
every child's cross-axis position `p` satisfies `0 ≤ p` and
`p + childCrossSize ≤ containerCrossSize` for every justification value,
because the container's cross-axis size is the running maximum of the
children's cross-axis sizes (for both `Row` and `Column`). -/
theorem claim_C10 :
    (∀ r : Row, r.children ≠ [] →
      ∀ (i : Nat) (hi : i < (Row.completeLocalLayout r).children.length),
        0 ≤ ((Row.completeLocalLayout r).children.get ⟨i, hi⟩).y ∧
        ((Row.completeLocalLayout r).children.get ⟨i, hi⟩).y +
          ((Row.completeLocalLayout r).children.get ⟨i, hi⟩).h ≤
          (Row.completeLocalLayout r).h) ∧
    (∀ co : Column, co.children ≠ [] →
      ∀ (i : Nat) (hi : i < (Column.completeLocalLayout co).children.length),
        0 ≤ ((Column.completeLocalLayout co).children.get ⟨i, hi⟩).x ∧
        ((Column.completeLocalLayout co).children.get ⟨i, hi⟩).x +
          ((Column.completeLocalLayout co).children.get ⟨i, hi⟩).w ≤
          (Column.completeLocalLayout co).w) := by
  constructor
  · intro r hne i hi
    have hi0 : i < r.children.length := by
      have := hi
      rw [Row.completeLocalLayout_eq r hne] at this
      simpa [Row.layoutKids_length] using this
    simp only [List.get_eq_getElem, Row.completeLocalLayout_eq r hne]
    have hi2 : i < (Row.layoutKids (Row.finalW (r.w - (Row.measureChildren r.children).1)
        (Row.measureChildren r.children).2.2 (Row.measureChildren r.children).2.1)
        (Row.hMaxOf r.children) r.hJustification r.children 0).length := by
      rw [Row.layoutKids_length]
      exact hi0
    rw [Row.layoutKids_getElem _ _ _ _ _ i hi0 hi2]
    have hmem : r.children[i].hConfig.nat ∈ (r.children.map fun c => c.hConfig.nat) :=
      List.mem_map_of_mem _ (List.getElem_mem _)
    have hle : r.children[i].hConfig.nat ≤ Row.hMaxOf r.children :=
      le_foldr_max_of_mem 0 hmem
    have h0 : (0 : ℚ) ≤ Row.hMaxOf r.children := le_foldr_max_self 0 _
    by_cases hj1 : r.hJustification = "top"
    · simp [Row.yJust, hj1]
      exact hle
    · by_cases hj2 : r.hJustification = "center"
      · simp [Row.yJust, hj2]
        constructor
        · linarith
        · linarith
      · by_cases hj3 : r.hJustification = "bottom"
        · simp [Row.yJust, hj3]
          linarith
        · simp [Row.yJust, hj1, hj2, hj3]
          exact hle
  · intro co hne i hi
    have hi0 : i < co.children.length := by
      have := hi
      rw [Column.completeLocalLayout_eq_col co hne] at this
      simpa [Column.layoutKids_length_col] using this
    simp only [List.get_eq_getElem, Column.completeLocalLayout_eq_col co hne]
    have hi2 : i < (Column.layoutKids (Column.finalH (co.h - (Column.measureChildren co.children).1)
        (Column.measureChildren co.children).2.2 (Column.measureChildren co.children).2.1)
        (Column.wMaxOf co.children) co.wJustification co.children 0).length := by
      rw [Column.layoutKids_length_col]
      exact hi0
    rw [Column.layoutKids_getElem_col _ _ _ _ _ i hi0 hi2]
    have hmem : co.children[i].wConfig.nat ∈ (co.children.map fun c => c.wConfig.nat) :=
      List.mem_map_of_mem _ (List.getElem_mem _)
    have hle : co.children[i].wConfig.nat ≤ Column.wMaxOf co.children :=
      le_foldr_max_of_mem 0 hmem
    have h0 : (0 : ℚ) ≤ Column.wMaxOf co.children := le_foldr_max_self 0 _
    by_cases hj1 : co.wJustification = "left"
    · simp [Column.xJust, hj1]
      exact hle
    · by_cases hj2 : co.wJustification = "center"
      · simp [Column.xJust, hj2]
        constructor
        · linarith
        · linarith
      · by_cases hj3 : co.wJustification = "right"
        · simp [Column.xJust, hj3]
          linarith
        · simp [Column.xJust, hj1, hj2, hj3]
          exact hle

/-- Witness for C10 at the strut/spring/strut demo containers (first child). -/
theorem claim_C10_witness :
    (demoRow100.children ≠ [] ∧
      0 ≤ ((Row.completeLocalLayout demoRow100).children.get
        ⟨0, by rw [Row.completeLocalLayout_eq demoRow100 (by simp [demoRow100])]; simp [Row.layoutKids_length, demoRow100]⟩).y) ∧
    (demoCol100.children ≠ [] ∧
      0 ≤ ((Column.completeLocalLayout demoCol100).children.get
        ⟨0, by rw [Column.completeLocalLayout_eq_col demoCol100 (by simp [demoCol100])]; simp [Column.layoutKids_length_col, demoCol100]⟩).x) := by
  have hne1 : demoRow100.children ≠ [] := by simp [demoRow100]
  have hne2 : demoCol100.children ≠ [] := by simp [demoCol100]
  exact ⟨⟨hne1, (claim_C10.1 demoRow100 hne1 0 _).1⟩,
    ⟨hne2, (claim_C10.2 demoCol100 hne2 0 _).1⟩⟩

/-- Evidence for C8 (a code bug): `_completeLocalLayout` executes
`this.h = this.hConfig.nat = hMax` (`this.w = this.wConfig.nat = wMax` in the
column), writing the `nat` field of the already-constructed cross-axis
SizeConfig in place.  At this input the container's cross-axis configuration
after the call is the OLD object with only its `nat` field overwritten
(min 0 and unbounded max survive from `elastic 13`), not a wholesale
replacement, and its `nat` component changed from 13 to 5. -/
theorem claim_C8_evidence :
    (Row.completeLocalLayout demoRowC8).hConfig = { demoRowC8.hConfig with nat := 5 } ∧
    demoRowC8.hConfig.nat = 13 ∧
    (Column.completeLocalLayout demoColC8).wConfig = { demoColC8.wConfig with nat := 5 } ∧
    demoColC8.wConfig.nat = 13 := by
  have hne1 : demoRowC8.children ≠ [] := by simp [demoRowC8]
  have hne2 : demoColC8.children ≠ [] := by simp [demoColC8]
  have hm1 : Row.hMaxOf demoRowC8.children = 5 := by
    norm_num [Row.hMaxOf, demoRowC8, demoStrut, SizeConfig.fixed]
  have hm2 : Column.wMaxOf demoColC8.children = 5 := by
    norm_num [Column.wMaxOf, demoColC8, demoStrutT, SizeConfig.fixed]
  refine ⟨?_, by norm_num [demoRowC8, SizeConfig.elastic], ?_,
    by norm_num [demoColC8, SizeConfig.elastic]⟩
  · rw [Row.completeLocalLayout_eq demoRowC8 hne1]
    simp [hm1]
  · rw [Column.completeLocalLayout_eq_col demoColC8 hne2]
    simp [hm2]

/-! ### Idempotence of sizing-then-placement (claim C9) -/

/-- Measuring is blind to the position/size fields that the layout normal form
assigns (it only reads `isSpring` and the width configurations). -/
theorem Row.measureLoop_layoutKids (wF : Child → ℚ) (selfH : ℚ) (j : String) :
    ∀ (cs : List Child) (x0 : ℚ) (a b : ℚ) (n : Nat),
      Row.measureLoop (Row.layoutKids wF selfH j cs x0) a b n
        = Row.measureLoop cs a b n := by
  intro cs
  induction cs with
  | nil => intro x0 a b n; rfl
  | cons c t ih =>
    intro x0 a b n
    by_cases hs : c.isSpring
    · simp [Row.layoutKids, Row.measureLoop, hs, ih, Child.naturalW, Child.minW]
    · simp [Row.layoutKids, Row.measureLoop, hs, ih, Child.naturalW, Child.minW]

/-- Method `Row._measureChildren` gives the same measurements before and after the
layout normal form. -/
theorem Row.measureChildren_layoutKids (wF : Child → ℚ) (selfH : ℚ) (j : String)
    (cs : List Child) (x0 : ℚ) :
    Row.measureChildren (Row.layoutKids wF selfH j cs x0) = Row.measureChildren cs :=
  Row.measureLoop_layoutKids wF selfH j cs x0 0 0 0

/-- Mirror of `Row.measureLoop_layoutKids` for `Column`. -/
theorem Column.measureLoop_layoutKids_col (hF : Child → ℚ) (selfW : ℚ) (j : String) :
    ∀ (cs : List Child) (y0 : ℚ) (a b : ℚ) (n : Nat),
      Column.measureLoop (Column.layoutKids hF selfW j cs y0) a b n
        = Column.measureLoop cs a b n := by
  intro cs
  induction cs with
  | nil => intro y0 a b n; rfl
  | cons c t ih =>
    intro y0 a b n
    by_cases hs : c.isSpring
    · simp [Column.layoutKids, Column.measureLoop, hs, ih]
    · simp [Column.layoutKids, Column.measureLoop, hs, ih]

/-- Method `Column._measureChildren` is blind to the layout normal form. -/
theorem Column.measureChildren_layoutKids_col (hF : Child → ℚ) (selfW : ℚ) (j : String)
    (cs : List Child) (y0 : ℚ) :
    Column.measureChildren (Column.layoutKids hF selfW j cs y0)
      = Column.measureChildren cs :=
  Column.measureLoop_layoutKids_col hF selfW j cs y0 0 0 0

/-- Any function of the sizing configurations and the spring flag is preserved
by the `Row` layout normal form. -/
theorem Row.layoutKids_map_conf {α : Type} (f : Child → α) (wF : Child → ℚ)
    (selfH : ℚ) (j : String)
    (hf : ∀ (c : Child) (w h x y : ℚ), f { c with w := w, h := h, x := x, y := y } = f c) :
    ∀ (cs : List Child) (x0 : ℚ),
      (Row.layoutKids wF selfH j cs x0).map f = cs.map f := by
  intro cs
  induction cs with
  | nil => intro x0; rfl
  | cons c t ih => intro x0; simp [Row.layoutKids, ih, hf]

/-- Any function of the sizing configurations and the spring flag is preserved
by the `Column` layout normal form. -/
theorem Column.layoutKids_map_conf_col {α : Type} (f : Child → α) (hF : Child → ℚ)
    (selfW : ℚ) (j : String)
    (hf : ∀ (c : Child) (w h x y : ℚ), f { c with w := w, h := h, x := x, y := y } = f c) :
    ∀ (cs : List Child) (y0 : ℚ),
      (Column.layoutKids hF selfW j cs y0).map f = cs.map f := by
  intro cs
  induction cs with
  | nil => intro y0; rfl
  | cons c t ih => intro y0; simp [Column.layoutKids, ih, hf]

/-- The natural heights are preserved by the `Row` layout normal form. -/
theorem Row.layoutKids_map_natH (wF : Child → ℚ) (selfH : ℚ) (j : String)
    (cs : List Child) (x0 : ℚ) :
    (Row.layoutKids wF selfH j cs x0).map (fun c => c.hConfig.nat)
      = cs.map fun c => c.hConfig.nat :=
  Row.layoutKids_map_conf (fun c => c.hConfig.nat) wF selfH j (fun _ _ _ _ _ => rfl) cs x0

/-- The `hConfig.min` values are preserved by the `Row` layout normal form. -/
theorem Row.layoutKids_map_minH (wF : Child → ℚ) (selfH : ℚ) (j : String)
    (cs : List Child) (x0 : ℚ) :
    (Row.layoutKids wF selfH j cs x0).map (fun c => c.hConfig.min)
      = cs.map fun c => c.hConfig.min :=
  Row.layoutKids_map_conf (fun c => c.hConfig.min) wF selfH j (fun _ _ _ _ _ => rfl) cs x0

/-- The `hConfig.max` values are preserved by the `Row` layout normal form. -/
theorem Row.layoutKids_map_maxH (wF : Child → ℚ) (selfH : ℚ) (j : String)
    (cs : List Child) (x0 : ℚ) :
    (Row.layoutKids wF selfH j cs x0).map (fun c => c.hConfig.max)
      = cs.map fun c => c.hConfig.max :=
  Row.layoutKids_map_conf (fun c => c.hConfig.max) wF selfH j (fun _ _ _ _ _ => rfl) cs x0

/-- The `wConfig.nat` values are preserved by the `Row` layout normal form. -/
theorem Row.layoutKids_map_natW (wF : Child → ℚ) (selfH : ℚ) (j : String)
    (cs : List Child) (x0 : ℚ) :
    (Row.layoutKids wF selfH j cs x0).map (fun c => c.wConfig.nat)
      = cs.map fun c => c.wConfig.nat :=
  Row.layoutKids_map_conf (fun c => c.wConfig.nat) wF selfH j (fun _ _ _ _ _ => rfl) cs x0

/-- The `wConfig.min` values are preserved by the `Row` layout normal form. -/
theorem Row.layoutKids_map_minW (wF : Child → ℚ) (selfH : ℚ) (j : String)
    (cs : List Child) (x0 : ℚ) :
    (Row.layoutKids wF selfH j cs x0).map (fun c => c.wConfig.min)
      = cs.map fun c => c.wConfig.min :=
  Row.layoutKids_map_conf (fun c => c.wConfig.min) wF selfH j (fun _ _ _ _ _ => rfl) cs x0

/-- The `wConfig.max` values are preserved by the `Row` layout normal form. -/
theorem Row.layoutKids_map_maxW (wF : Child → ℚ) (selfH : ℚ) (j : String)
    (cs : List Child) (x0 : ℚ) :
    (Row.layoutKids wF selfH j cs x0).map (fun c => c.wConfig.max)
      = cs.map fun c => c.wConfig.max :=
  Row.layoutKids_map_conf (fun c => c.wConfig.max) wF selfH j (fun _ _ _ _ _ => rfl) cs x0

/-- The running maximum of natural heights is preserved by the `Row` layout
normal form. -/
theorem Row.hMaxOf_layoutKids (wF : Child → ℚ) (selfH : ℚ) (j : String)
    (cs : List Child) (x0 : ℚ) :
    Row.hMaxOf (Row.layoutKids wF selfH j cs x0) = Row.hMaxOf cs := by
  unfold Row.hMaxOf
  rw [Row.layoutKids_map_natH]

/-- The natural widths are preserved by the `Column` layout normal form. -/
theorem Column.layoutKids_map_natW_col (hF : Child → ℚ) (selfW : ℚ) (j : String)
    (cs : List Child) (y0 : ℚ) :
    (Column.layoutKids hF selfW j cs y0).map (fun c => c.wConfig.nat)
      = cs.map fun c => c.wConfig.nat :=
  Column.layoutKids_map_conf_col (fun c => c.wConfig.nat) hF selfW j (fun _ _ _ _ _ => rfl) cs y0

/-- The `wConfig.min` values are preserved by the `Column` layout form. -/
theorem Column.layoutKids_map_minW_col (hF : Child → ℚ) (selfW : ℚ) (j : String)
    (cs : List Child) (y0 : ℚ) :
    (Column.layoutKids hF selfW j cs y0).map (fun c => c.wConfig.min)
      = cs.map fun c => c.wConfig.min :=
  Column.layoutKids_map_conf_col (fun c => c.wConfig.min) hF selfW j (fun _ _ _ _ _ => rfl) cs y0

/-- The `wConfig.max` values are preserved by the `Column` layout form. -/
theorem Column.layoutKids_map_maxW_col (hF : Child → ℚ) (selfW : ℚ) (j : String)
    (cs : List Child) (y0 : ℚ) :
    (Column.layoutKids hF selfW j cs y0).map (fun c => c.wConfig.max)
      = cs.map fun c => c.wConfig.max :=
  Column.layoutKids_map_conf_col (fun c => c.wConfig.max) hF selfW j (fun _ _ _ _ _ => rfl) cs y0

/-- The `hConfig.nat` values are preserved by the `Column` layout form. -/
theorem Column.layoutKids_map_natH_col (hF : Child → ℚ) (selfW : ℚ) (j : String)
    (cs : List Child) (y0 : ℚ) :
    (Column.layoutKids hF selfW j cs y0).map (fun c => c.hConfig.nat)
      = cs.map fun c => c.hConfig.nat :=
  Column.layoutKids_map_conf_col (fun c => c.hConfig.nat) hF selfW j (fun _ _ _ _ _ => rfl) cs y0

/-- The `hConfig.min` values are preserved by the `Column` layout form. -/
theorem Column.layoutKids_map_minH_col (hF : Child → ℚ) (selfW : ℚ) (j : String)
    (cs : List Child) (y0 : ℚ) :
    (Column.layoutKids hF selfW j cs y0).map (fun c => c.hConfig.min)
      = cs.map fun c => c.hConfig.min :=
  Column.layoutKids_map_conf_col (fun c => c.hConfig.min) hF selfW j (fun _ _ _ _ _ => rfl) cs y0

/-- The `hConfig.max` values are preserved by the `Column` layout form. -/
theorem Column.layoutKids_map_maxH_col (hF : Child → ℚ) (selfW : ℚ) (j : String)
    (cs : List Child) (y0 : ℚ) :
    (Column.layoutKids hF selfW j cs y0).map (fun c => c.hConfig.max)
      = cs.map fun c => c.hConfig.max :=
  Column.layoutKids_map_conf_col (fun c => c.hConfig.max) hF selfW j (fun _ _ _ _ _ => rfl) cs y0

/-- The running maximum of natural widths is preserved by the `Column` layout
normal form. -/
theorem Column.wMaxOf_layoutKids (hF : Child → ℚ) (selfW : ℚ) (j : String)
    (cs : List Child) (y0 : ℚ) :
    Column.wMaxOf (Column.layoutKids hF selfW j cs y0) = Column.wMaxOf cs := by
  unfold Column.wMaxOf
  rw [Column.layoutKids_map_natW_col]

/-- Re-evaluating the `Row` final width on a child already carrying its final
width (and any positions and cross size) gives the same width: branches that
depend on the current width return it unchanged, the others only read the
configurations and the spring flag. -/
theorem Row.finalW_stable (E : ℚ) (n : Nat) (A : ℚ) (c : Child) (hh xx yy : ℚ) :
    Row.finalW E n A { c with w := Row.finalW E n A c, h := hh, x := xx, y := yy }
      = Row.finalW E n A c := by
  simp only [Row.finalW]
  by_cases hE : 0 ≤ E
  · simp only [hE, if_true, ite_true]
    by_cases hs : c.isSpring = true ∧ n ≠ 0
    · simp [hs]
    · simp [hs]
  · simp only [hE, if_false, ite_false]
    by_cases hs : c.isSpring = true
    · simp [hs]
    · simp only [hs, if_false, ite_false]
      by_cases hA : A = 0
      · simp [hA, hs, hE]
      · simp [hA]

/-- Mirror of `Row.finalW_stable` for `Column`. -/
theorem Column.finalH_stable (E : ℚ) (n : Nat) (A : ℚ) (c : Child) (ww xx yy : ℚ) :
    Column.finalH E n A { c with h := Column.finalH E n A c, w := ww, x := xx, y := yy }
      = Column.finalH E n A c := by
  simp only [Column.finalH]
  by_cases hE : 0 ≤ E
  · simp only [hE, if_true, ite_true]
    by_cases hs : c.isSpring = true ∧ n ≠ 0
    · simp [hs]
    · simp [hs]
  · simp only [hE, if_false, ite_false]
    by_cases hs : c.isSpring = true
    · simp [hs]
    · simp only [hs, if_false, ite_false]
      by_cases hA : A = 0
      · simp [hA, hs, hE]
      · simp [hA]

/-- Applying the `Row` layout normal form twice (with the same final-width
function, height and justification) is the same as applying it once. -/
theorem Row.layoutKids_idem (E : ℚ) (n : Nat) (A : ℚ) (selfH : ℚ) (j : String) :
    ∀ (cs : List Child) (x0 : ℚ),
      Row.layoutKids (Row.finalW E n A) selfH j
          (Row.layoutKids (Row.finalW E n A) selfH j cs x0) x0
        = Row.layoutKids (Row.finalW E n A) selfH j cs x0 := by
  intro cs
  induction cs with
  | nil => intro x0; rfl
  | cons c t ih =>
    intro x0
    simp only [Row.layoutKids, List.cons.injEq]
    constructor
    · rw [Row.finalW_stable]
    · rw [Row.finalW_stable]
      exact ih (x0 + Row.finalW E n A c)

/-- Applying the `Column` layout normal form twice is the same as once. -/
theorem Column.layoutKids_idem_col (E : ℚ) (n : Nat) (A : ℚ) (selfW : ℚ) (j : String) :
    ∀ (cs : List Child) (y0 : ℚ),
      Column.layoutKids (Column.finalH E n A) selfW j
          (Column.layoutKids (Column.finalH E n A) selfW j cs y0) y0
        = Column.layoutKids (Column.finalH E n A) selfW j cs y0 := by
  intro cs
  induction cs with
  | nil => intro y0; rfl
  | cons c t ih =>
    intro y0
    simp only [Column.layoutKids, List.cons.injEq]
    constructor
    · rw [Column.finalH_stable]
    · rw [Column.finalH_stable]
      exact ih (y0 + Column.finalH E n A c)

/-- Normal form of one full sizing-then-placement pass on a `Row` with
children: configurations re-derived from the children (the cross-axis `nat`
then overwritten by the running maximum), height shrink-wrapped, children in
layout normal form. -/
theorem Row.sizePlace_eq (r : Row) (hne : r.children ≠ []) :
    Row.sizePlace r =
      { r with
        wConfig := ⟨(r.children.map fun c => c.wConfig.nat).sum,
                    (r.children.map fun c => c.wConfig.min).sum,
                    (r.children.map fun c => c.wConfig.max).sum⟩
        hConfig := ⟨Row.hMaxOf r.children,
                    (r.children.map fun c => c.hConfig.min).foldr max 0,
                    (r.children.map fun c => c.hConfig.max).foldr max 0⟩
        h := Row.hMaxOf r.children
        children := (Row.layoutKids
          (Row.finalW (r.w - (Row.measureChildren r.children).1)
            (Row.measureChildren r.children).2.2
            (Row.measureChildren r.children).2.1)
          (Row.hMaxOf r.children) r.hJustification r.children 0) } := by
  unfold Row.sizePlace
  rw [Row.completeLocalLayout_eq (Row.doLocalSizing r) hne, Row.doLocalSizing_eq r]

/-- Normal form of one full sizing-then-placement pass on a `Column`. -/
theorem Column.sizePlace_eq_col (co : Column) (hne : co.children ≠ []) :
    Column.sizePlace co =
      { co with
        hConfig := ⟨(co.children.map fun c => c.hConfig.nat).sum,
                    (co.children.map fun c => c.hConfig.min).sum,
                    (co.children.map fun c => c.hConfig.max).sum⟩
        wConfig := ⟨Column.wMaxOf co.children,
                    (co.children.map fun c => c.wConfig.min).foldr max 0,
                    (co.children.map fun c => c.wConfig.max).foldr max 0⟩
        w := Column.wMaxOf co.children
        children := (Column.layoutKids
          (Column.finalH (co.h - (Column.measureChildren co.children).1)
            (Column.measureChildren co.children).2.2
            (Column.measureChildren co.children).2.1)
          (Column.wMaxOf co.children) co.wJustification co.children 0) } := by
  unfold Column.sizePlace
  rw [Column.completeLocalLayout_eq_col (Column.doLocalSizing co) hne, Column.doLocalSizing_eq_col co]

/-- Running sizing-then-placement twice on a `Row` is the same as once. -/
theorem Row.sizePlace_idem (r : Row) :
    Row.sizePlace (Row.sizePlace r) = Row.sizePlace r := by
  by_cases hne : r.children = []
  · have hz : (Row.doLocalSizing r).children.length = 0 := by
      show r.children.length = 0
      simp [hne]
    have h1 : Row.completeLocalLayout (Row.doLocalSizing r) = Row.doLocalSizing r := by
      rw [Row.completeLocalLayout, if_pos hz]
    have h2 : Row.doLocalSizing (Row.doLocalSizing r) = Row.doLocalSizing r := rfl
    unfold Row.sizePlace
    rw [h1, h2, h1]
  · rw [Row.sizePlace_eq r hne]
    have hneS : (Row.layoutKids
        (Row.finalW (r.w - (Row.measureChildren r.children).1)
          (Row.measureChildren r.children).2.2
          (Row.measureChildren r.children).2.1)
        (Row.hMaxOf r.children) r.hJustification r.children 0) ≠ [] := by
      intro h
      apply hne
      have hl := congrArg List.length h
      rwa [Row.layoutKids_length, List.length_nil, List.length_eq_zero] at hl
    rw [Row.sizePlace_eq _ hneS]
    simp only [Row.measureChildren_layoutKids, Row.hMaxOf_layoutKids,
      Row.layoutKids_map_natW, Row.layoutKids_map_minW, Row.layoutKids_map_maxW,
      Row.layoutKids_map_natH, Row.layoutKids_map_minH, Row.layoutKids_map_maxH,
      Row.layoutKids_idem]

/-- Running sizing-then-placement twice on a `Column` is the same as once. -/
theorem Column.sizePlace_idem_col (co : Column) :
    Column.sizePlace (Column.sizePlace co) = Column.sizePlace co := by
  by_cases hne : co.children = []
  · have hz : (Column.doLocalSizing co).children.length = 0 := by
      show co.children.length = 0
      simp [hne]
    have h1 : Column.completeLocalLayout (Column.doLocalSizing co)
        = Column.doLocalSizing co := by
      rw [Column.completeLocalLayout, if_pos hz]
    have h2 : Column.doLocalSizing (Column.doLocalSizing co) = Column.doLocalSizing co := rfl
    unfold Column.sizePlace
    rw [h1, h2, h1]
  · rw [Column.sizePlace_eq_col co hne]
    have hneS : (Column.layoutKids
        (Column.finalH (co.h - (Column.measureChildren co.children).1)
          (Column.measureChildren co.children).2.2
          (Column.measureChildren co.children).2.1)
        (Column.wMaxOf co.children) co.wJustification co.children 0) ≠ [] := by
      intro h
      apply hne
      have hl := congrArg List.length h
      rwa [Column.layoutKids_length_col, List.length_nil, List.length_eq_zero] at hl
    rw [Column.sizePlace_eq_col _ hneS]
    simp only [Column.measureChildren_layoutKids_col, Column.wMaxOf_layoutKids,
      Column.layoutKids_map_natW_col, Column.layoutKids_map_minW_col, Column.layoutKids_map_maxW_col,
      Column.layoutKids_map_natH_col, Column.layoutKids_map_minH_col, Column.layoutKids_map_maxH_col,
      Column.layoutKids_idem_col]

/-- C9: sizing-then-placement is idempotent — with the children and the
externally set primary-axis size held fixed, running `_doLocalSizing` followed
by `_completeLocalLayout` twice in succession yields exactly the same state
(positions, sizes and SizeConfigs of the container and all children) as
running them once (for both `Row` and `Column`). -/
theorem claim_C9 :
    (∀ r : Row,
      Row.completeLocalLayout (Row.doLocalSizing
          (Row.completeLocalLayout (Row.doLocalSizing r)))
        = Row.completeLocalLayout (Row.doLocalSizing r)) ∧
    (∀ co : Column,
      Column.completeLocalLayout (Column.doLocalSizing
          (Column.completeLocalLayout (Column.doLocalSizing co)))
        = Column.completeLocalLayout (Column.doLocalSizing co)) :=
  ⟨fun r => Row.sizePlace_idem r, fun co => Column.sizePlace_idem_col co⟩
